import Mathlib

/-!
# quic-go wire headers, version negotiation and handshake conduit

A shallow embedding of `internal/wire/ietf_header.go`,
`internal/wire/version_negotiation.go`,
`internal/handshake/crypto_stream_conn.go` and
`internal/handshake/tls_extension_handler_server.go`.

Conventions of the embedding:
* a byte is a `Nat` (below 256 on every path that the writers produce);
* a `bytes.Buffer` is the list of the bytes written so far, a `bytes.Reader`
  is the list of the bytes not yet read;
* a Go conversion `uintN(x)` is `x % 2 ^ N`;
* a function returning `(*Header, error)` returns `Except Err (Header × Reader)`,
  the reader being the state left behind;
* a function writing into a buffer and returning `error` returns the new
  buffer together with `Option Err` (`none` is Go's `nil`).
-/

namespace QuicGo

/-- Contents of a `bytes.Buffer`. -/
abbrev Buffer := List Nat

/-- Unread part of a `bytes.Reader`. -/
abbrev Reader := List Nat

/-- Errors (and run-time failures) the embedded functions can end with. -/
inductive Err where
  /-- The error `io.EOF`, what `ReadByte` reports on an exhausted reader -/
  | EOF
  /-- The error `qerr.InvalidVersion` -/
  | InvalidVersion
  /-- The error `qerr.InvalidVersionNegotiationPacket` -/
  | InvalidVersionNegotiationPacket
  /-- The error `qerr.InvalidPacketHeader`, with the packet type that is echoed -/
  | InvalidPacketHeader (packetType : Nat)
  /-- The error `fmt.Errorf("invalid packet number length: %d", n)` -/
  | InvalidPacketNumberLen (n : Nat)
  /-- A run-time panic: slice index out of range -/
  | IndexOutOfRange
  /-- The loop of the embedding ran out of fuel (shown never to happen) -/
  | OutOfFuel
  deriving DecidableEq, Repr

deriving instance DecidableEq for Except

/-- The `protocol.Perspective` of the sender of a packet. -/
inductive Perspective where
  | Server
  | Client
  deriving DecidableEq, Repr

/-- The numeric values of the `protocol.PacketType` constants. Package
`protocol` is not among the sources, so the values are parameters of the
embedding. `PacketType` is an unsigned byte. -/
structure PacketTypes where
  VersionNegotiation : Nat
  Initial : Nat
  Retry : Nat
  Handshake : Nat
  ZeroRTT : Nat
  deriving DecidableEq, Repr

/-- Modelled from the spec: `protocol.PacketNumberLen1` (package `protocol`
is not among the sources); "`PacketNumberLen` is a tagged enum over {1,2,4}". -/
def PacketNumberLen1 : Nat := 1

/-- Modelled from the spec: `protocol.PacketNumberLen2`. -/
def PacketNumberLen2 : Nat := 2

/-- Modelled from the spec: `protocol.PacketNumberLen4`. -/
def PacketNumberLen4 : Nat := 4

/-- The fields of `wire.Header` that the IETF header code reads or writes.
`Typ` is the Go field `Type`. Every default is the Go zero value. -/
structure Header where
  ConnectionID : Nat := 0
  OmitConnectionID : Bool := false
  PacketNumberLen : Nat := 0
  PacketNumber : Nat := 0
  Version : Nat := 0
  SupportedVersions : List Nat := []
  IsVersionNegotiation : Bool := false
  Typ : Nat := 0
  IsLongHeader : Bool := false
  KeyPhase : Int := 0
  SpinBit : Bool := false
  deriving DecidableEq, Repr

/-! ## Big-endian primitives (package `utils`) -/

/-- Embedding of `bytes.Reader.ReadByte`. -/
def ReadByte : Reader → Except Err (Nat × Reader)
  | [] => .error .EOF
  | x :: r => .ok (x, r)

/-- Modelled from the spec: `utils.BigEndian.ReadUint32` (package `utils` is
not among the sources): four bytes, most significant first; an error when
the reader runs dry. -/
def ReadUint32 : Reader → Except Err (Nat × Reader)
  | b1 :: b2 :: b3 :: b4 :: r =>
      .ok (b1 * 2 ^ 24 + b2 * 2 ^ 16 + b3 * 2 ^ 8 + b4, r)
  | _ => .error .EOF

/-- Modelled from the spec: `utils.BigEndian.ReadUint64`: eight bytes, most
significant first. -/
def ReadUint64 : Reader → Except Err (Nat × Reader)
  | b1 :: b2 :: b3 :: b4 :: b5 :: b6 :: b7 :: b8 :: r =>
      .ok (b1 * 2 ^ 56 + b2 * 2 ^ 48 + b3 * 2 ^ 40 + b4 * 2 ^ 32
            + b5 * 2 ^ 24 + b6 * 2 ^ 16 + b7 * 2 ^ 8 + b8, r)
  | _ => .error .EOF

/-- Big-endian accumulation of `length` bytes onto `acc`. -/
def readUintNAux : Nat → Nat → Reader → Except Err (Nat × Reader)
  | 0, acc, r => .ok (acc, r)
  | n + 1, acc, r =>
    match ReadByte r with
    | .error e => .error e
    | .ok (x, r1) => readUintNAux n (acc * 256 + x) r1

/-- Modelled from the spec: `utils.BigEndian.ReadUintN(b, length)`: "read
`pnLen` bytes big-endian"; the result is a `uint64`. -/
def ReadUintN (r : Reader) (length : Nat) : Except Err (Nat × Reader) :=
  match readUintNAux length 0 r with
  | .error e => .error e
  | .ok (v, r1) => .ok (v % 2 ^ 64, r1)

/-- Embedding of `bytes.Buffer.WriteByte`. -/
def WriteByte (b : Buffer) (x : Nat) : Buffer := b ++ [x % 256]

/-- Modelled from the spec: `utils.BigEndian.WriteUint16`. -/
def WriteUint16 (b : Buffer) (i : Nat) : Buffer :=
  b ++ [i / 2 ^ 8 % 256, i % 256]

/-- Modelled from the spec: `utils.BigEndian.WriteUint32`. -/
def WriteUint32 (b : Buffer) (i : Nat) : Buffer :=
  b ++ [i / 2 ^ 24 % 256, i / 2 ^ 16 % 256, i / 2 ^ 8 % 256, i % 256]

/-- Modelled from the spec: `utils.BigEndian.WriteUint64`. -/
def WriteUint64 (b : Buffer) (i : Nat) : Buffer :=
  b ++ [i / 2 ^ 56 % 256, i / 2 ^ 48 % 256, i / 2 ^ 40 % 256, i / 2 ^ 32 % 256,
        i / 2 ^ 24 % 256, i / 2 ^ 16 % 256, i / 2 ^ 8 % 256, i % 256]

/-! ## `ietf_header.go` -/

/-- The loop `for i := 0; b.Len() > 0; i++` of `parseLongHeader` that fills
`h.SupportedVersions`. Each turn consumes four bytes, so `b.Len() + 1` turns
of fuel are never used up. -/
def readSupportedVersions : Nat → Reader → Nat → Header → Except Err (Header × Reader)
  | 0, _, _, _ => .error .OutOfFuel
  | fuel + 1, b, i, h =>
    if b.length > 0 then
      match ReadUint32 b with
      | .error _ => .error .InvalidVersionNegotiationPacket
      | .ok (v, b1) =>
        if i < h.SupportedVersions.length then
          readSupportedVersions fuel b1 (i + 1)
            { h with SupportedVersions := h.SupportedVersions.set i v }
        else .error .IndexOutOfRange
    else .ok (h, b)

/-- Embedding of `parseLongHeader`: long header and version negotiation packets. -/
def parseLongHeader (pt : PacketTypes) (b : Reader) (sentBy : Perspective)
    (typeByte : Nat) : Except Err (Header × Reader) :=
  match ReadUint64 b with
  | .error e => .error e
  | .ok (connID, b1) =>
    match ReadUint32 b1 with
    | .error e => .error e
    | .ok (v, b2) =>
      let h : Header := { ConnectionID := connID, Version := v }
      if v = 0 then
        if sentBy = Perspective.Client then .error .InvalidVersion
        else if b2.length = 0 then .error .InvalidVersionNegotiationPacket
        else
          readSupportedVersions (b2.length + 1) b2 0
            { h with IsVersionNegotiation := true,
                     SupportedVersions := List.replicate (b2.length / 4) 0 }
      else
        match ReadUint32 b2 with
        | .error e => .error e
        | .ok (pn, b3) =>
          let h : Header :=
            { h with IsLongHeader := true, PacketNumber := pn,
                     PacketNumberLen := PacketNumberLen4,
                     Typ := ((typeByte ^^^ 0xff) + 1) % 256 }
          if sentBy = Perspective.Client ∧
              (h.Typ ≠ pt.Initial ∧ h.Typ ≠ pt.Handshake ∧ h.Typ ≠ pt.ZeroRTT) then
            .error (.InvalidPacketHeader h.Typ)
          else if sentBy = Perspective.Server ∧
              (h.Typ ≠ pt.Retry ∧ h.Typ ≠ pt.Handshake) then
            .error (.InvalidPacketHeader h.Typ)
          else .ok (h, b3)

/-- Embedding of `parseShortHeader`. `pnLen` is a Go `int`; `uint8(pnLen)` and
`protocol.PacketNumberLen(pnLen)` truncate it to a byte. -/
def parseShortHeader (b : Reader) (typeByte : Nat) : Except Err (Header × Reader) :=
  let hasConnID : Bool := decide (typeByte &&& 0x40 > 0)
  match (if hasConnID then ReadUint64 b else .ok (0, b)) with
  | .error e => .error e
  | .ok (connID, b1) =>
    let pnLen := 1 <<< ((typeByte &&& 0xF) ^^^ 0xF)
    match ReadUintN b1 (pnLen % 256) with
    | .error e => .error e
    | .ok (pn, b2) =>
      .ok ({ SpinBit := decide (typeByte &&& 0x10 ≠ 0),
             KeyPhase := (((typeByte &&& 0x20) >>> 5 : Nat) : Int),
             OmitConnectionID := !hasConnID,
             ConnectionID := connID,
             PacketNumber := pn,
             PacketNumberLen := pnLen % 256 }, b2)

/-- Embedding of `parseHeader`. -/
def parseHeader (pt : PacketTypes) (b : Reader) (packetSentBy : Perspective) :
    Except Err (Header × Reader) :=
  match ReadByte b with
  | .error e => .error e
  | .ok (typeByte, b1) =>
    if typeByte &&& 0x80 > 0 then parseLongHeader pt b1 packetSentBy typeByte
    else parseShortHeader b1 typeByte

/-- Embedding of `Header.writeLongHeader`. `h.Type - 1` wraps around in the
unsigned byte type of `PacketType`. -/
def writeLongHeader (h : Header) (b : Buffer) : Buffer × Option Err :=
  let b := WriteByte b (((h.Typ + 255) % 256) ^^^ 0xFF)
  let b := WriteUint64 b (h.ConnectionID % 2 ^ 64)
  let b := WriteUint32 b (h.Version % 2 ^ 32)
  let b := WriteUint32 b (h.PacketNumber % 2 ^ 32)
  (b, none)

/-- The first `switch h.PacketNumberLen` of `writeShortHeader`: the type byte
with the packet number length mixed in, `none` in the `default` case. -/
def shortTypeByte (h : Header) : Option Nat :=
  let typeByte := ((h.KeyPhase * 32) % 256).toNat
  let typeByte := if h.SpinBit then typeByte ^^^ 0x10 else typeByte
  let typeByte := if !h.OmitConnectionID then typeByte ^^^ 0x40 else typeByte
  if h.PacketNumberLen = PacketNumberLen1 then some (typeByte ^^^ 0xF)
  else if h.PacketNumberLen = PacketNumberLen2 then some (typeByte ^^^ 0xE)
  else if h.PacketNumberLen = PacketNumberLen4 then some (typeByte ^^^ 0xD)
  else none

/-- Embedding of `Header.writeShortHeader`. -/
def writeShortHeader (h : Header) (b : Buffer) : Buffer × Option Err :=
  match shortTypeByte h with
  | none => (b, some (.InvalidPacketNumberLen h.PacketNumberLen))
  | some typeByte =>
    let b := WriteByte b typeByte
    let b := if !h.OmitConnectionID then WriteUint64 b (h.ConnectionID % 2 ^ 64) else b
    let b :=
      if h.PacketNumberLen = PacketNumberLen1 then WriteByte b (h.PacketNumber % 2 ^ 8)
      else if h.PacketNumberLen = PacketNumberLen2 then WriteUint16 b (h.PacketNumber % 2 ^ 16)
      else if h.PacketNumberLen = PacketNumberLen4 then WriteUint32 b (h.PacketNumber % 2 ^ 32)
      else b
    (b, none)

/-- Embedding of `Header.writeHeader`. -/
def writeHeader (h : Header) (b : Buffer) : Buffer × Option Err :=
  if h.IsLongHeader then writeLongHeader h b else writeShortHeader h b

/-- Embedding of `Header.getHeaderLength`. -/
def getHeaderLength (h : Header) : Except Err Nat :=
  if h.IsLongHeader then .ok (1 + 8 + 4 + 4)
  else
    let length := 1
    let length := if !h.OmitConnectionID then length + 8 else length
    if h.PacketNumberLen ≠ PacketNumberLen1 ∧ h.PacketNumberLen ≠ PacketNumberLen2 ∧
        h.PacketNumberLen ≠ PacketNumberLen4 then
      .error (.InvalidPacketNumberLen h.PacketNumberLen)
    else .ok (length + h.PacketNumberLen)

/-! ## `version_negotiation.go` -/

/-- The `for i, v := range versions` loop of `writeVersions`; `i` is the
index of the head of the list. -/
def writeVersionsLoop (randPos reservedVersion : Nat) : List Nat → Nat → Buffer → Buffer
  | [], _, buf => buf
  | v :: vs, i, buf =>
    let buf := if i = randPos then WriteUint32 buf (reservedVersion % 2 ^ 32) else buf
    let buf := WriteUint32 buf (v % 2 ^ 32)
    writeVersionsLoop randPos reservedVersion vs (i + 1) buf

/-- Embedding of `writeVersions`. The byte that `rand.Read` delivers (`rnd`)
and the value of `protocol.GenerateReservedVersion()` are inputs. -/
def writeVersions (buf : Buffer) (versions : List Nat) (rnd reservedVersion : Nat) : Buffer :=
  let numVersions := versions.length
  let randPos := rnd % (numVersions + 1)
  let buf := writeVersionsLoop randPos reservedVersion versions 0 buf
  if randPos = numVersions then WriteUint32 buf (reservedVersion % 2 ^ 32) else buf

/-- Embedding of `ComposeVersionNegotiation`; `none` is the `nil` slice
returned when the header cannot be written. -/
def ComposeVersionNegotiation (pt : PacketTypes) (connID pn versionOffered : Nat)
    (versions : List Nat) (rnd reservedVersion : Nat) : Option Buffer :=
  let ph : Header :=
    { IsLongHeader := true, Typ := pt.VersionNegotiation, ConnectionID := connID,
      PacketNumber := pn, Version := versionOffered }
  match writeHeader ph [] with
  | (_, some _) => none
  | (fullReply, none) => some (writeVersions fullReply versions rnd reservedVersion)

/-! ## `crypto_stream_conn.go`

The conduit keeps two `bytes.Buffer` queues and an `io.ReadWriter` stream.
A `[]byte` argument is the list of its bytes; a `Read` returns the slice as
it is after the call. The stream is any implementation of `io.ReadWriter`:
its behaviour is a parameter (`StreamOps`), its state is kept with the
reference to it, and `addr` stands for the identity of the object. A blocked
or concurrent call is outside the embedding. The field `remoteAddr`, which
only `RemoteAddr` reads, is left out. -/

/-- Errors and panics of the byte conduit. -/
inductive StreamErr where
  /-- The error `io.EOF` -/
  | EOF
  /-- The error `io.ErrShortWrite` -/
  | ErrShortWrite
  /-- A run-time panic: method call on a nil `io.ReadWriter` -/
  | NilStream
  /-- The panic `bytes.Buffer.WriteTo: invalid Write count` -/
  | InvalidWriteCount
  /-- Any other error that a stream returns -/
  | Other (code : Nat)
  deriving DecidableEq, Repr

/-- Go's builtin `copy(dst, src)`: the destination afterwards and the number
of bytes copied. -/
def copyBytes (dst src : List Nat) : List Nat × Nat :=
  (src.take dst.length ++ dst.drop src.length, min dst.length src.length)

/-- Method `Read` of `bytes.Buffer` (Go standard library): the buffer left,
the slice `p` afterwards, `n` and `err`. -/
def BufferRead (b : Buffer) (p : List Nat) : Buffer × List Nat × Nat × Option StreamErr :=
  if b.length = 0 then
    if p.length = 0 then ([], p, 0, none) else ([], p, 0, some .EOF)
  else
    let n := (copyBytes p b).2
    (b.drop n, (copyBytes p b).1, n, none)

/-- Method `Write` of `bytes.Buffer`: appends, never fails. -/
def BufferWrite (b : Buffer) (p : List Nat) : Buffer × Nat × Option StreamErr :=
  (b ++ p, p.length, none)

/-- The behaviour of an `io.ReadWriter` with states in `S`: `Read(p)` gives the
new state, the slice afterwards, `n` and `err`; `Write(p)` gives the new
state, `n` and `err`. -/
structure StreamOps (S : Type) where
  Read : S → List Nat → S × List Nat × Nat × Option StreamErr
  Write : S → List Nat → S × Nat × Option StreamErr

/-- A non-nil `io.ReadWriter` value: the object it points to, and its state. -/
structure StreamRef (S : Type) where
  addr : Nat
  state : S
  deriving DecidableEq, Repr

/-- The struct `CryptoStreamConn`; `stream = none` is the nil interface. -/
structure CryptoStreamConn (S : Type) where
  readBuf : Buffer := []
  writeBuf : Buffer := []
  stream : Option (StreamRef S) := none
  deriving DecidableEq, Repr

/-- Embedding of `NewCryptoStreamConn`. -/
def NewCryptoStreamConn (S : Type) : CryptoStreamConn S := {}

/-- Embedding of `CryptoStreamConn.Read`. -/
def CryptoStreamConn.Read {S : Type} (ops : StreamOps S) (c : CryptoStreamConn S)
    (b : List Nat) : CryptoStreamConn S × List Nat × Nat × Option StreamErr :=
  match c.stream with
  | some s =>
    let r := ops.Read s.state b
    ({ c with stream := some { s with state := r.1 } }, r.2.1, r.2.2.1, r.2.2.2)
  | none =>
    let r := BufferRead c.readBuf b
    let err := if r.2.2.2 = some StreamErr.EOF then none else r.2.2.2
    ({ c with readBuf := r.1 }, r.2.1, r.2.2.1, err)

/-- Embedding of `CryptoStreamConn.AddDataForReading`. -/
def CryptoStreamConn.AddDataForReading {S : Type} (c : CryptoStreamConn S)
    (data : List Nat) : CryptoStreamConn S :=
  { c with readBuf := (BufferWrite c.readBuf data).1 }

/-- Embedding of `CryptoStreamConn.Write`. -/
def CryptoStreamConn.Write {S : Type} (ops : StreamOps S) (c : CryptoStreamConn S)
    (p : List Nat) : CryptoStreamConn S × Nat × Option StreamErr :=
  match c.stream with
  | some s =>
    let r := ops.Write s.state p
    ({ c with stream := some { s with state := r.1 } }, r.2.1, r.2.2)
  | none =>
    let r := BufferWrite c.writeBuf p
    ({ c with writeBuf := r.1 }, r.2.1, r.2.2)

/-- Embedding of `CryptoStreamConn.GetDataForWriting`: the bytes of the write
buffer at the time of the call; the deferred `Reset` empties the buffer. -/
def CryptoStreamConn.GetDataForWriting {S : Type} (c : CryptoStreamConn S) :
    CryptoStreamConn S × List Nat :=
  ({ c with writeBuf := [] }, c.writeBuf)

/-- Embedding of `CryptoStreamConn.SetStream`. -/
def CryptoStreamConn.SetStream {S : Type} (c : CryptoStreamConn S)
    (stream : Option (StreamRef S)) : CryptoStreamConn S :=
  { c with stream := stream }

/-- Embedding of `CryptoStreamConn.Flush`. `io.Copy(c.stream, &c.writeBuf)`
calls `c.writeBuf.WriteTo(c.stream)`, a `bytes.Buffer` being an
`io.WriterTo`: one `Write` of all the bytes unless there are none, then the
checks of `WriteTo`, then `Reset`. -/
def CryptoStreamConn.Flush {S : Type} (ops : StreamOps S) (c : CryptoStreamConn S) :
    CryptoStreamConn S × Nat × Option StreamErr :=
  let nBytes := c.writeBuf.length
  if nBytes > 0 then
    match c.stream with
    | none => (c, 0, some .NilStream)
    | some s =>
      let r := ops.Write s.state c.writeBuf
      let m := r.2.1
      let c1 : CryptoStreamConn S := { c with stream := some { s with state := r.1 } }
      if m > nBytes then (c1, 0, some .InvalidWriteCount)
      else
        let c2 : CryptoStreamConn S := { c1 with writeBuf := c.writeBuf.drop m }
        if r.2.2 ≠ none then (c2, m, r.2.2)
        else if m ≠ nBytes then (c2, m, some .ErrShortWrite)
        else ({ c2 with writeBuf := [] }, m, none)
  else ({ c with writeBuf := [] }, 0, none)

/-- A call of one of the methods that change a `CryptoStreamConn`. -/
inductive ConnOp (S : Type) where
  | Read (b : List Nat)
  | Write (p : List Nat)
  | AddDataForReading (data : List Nat)
  | GetDataForWriting
  | Flush
  | SetStream (stream : Option (StreamRef S))

/-- Whether the call is a `SetStream`. -/
def ConnOp.isSetStream {S : Type} : ConnOp S → Bool
  | .SetStream _ => true
  | _ => false

/-- The conn after one call. -/
def CryptoStreamConn.step {S : Type} (ops : StreamOps S) (c : CryptoStreamConn S) :
    ConnOp S → CryptoStreamConn S
  | .Read b => (c.Read ops b).1
  | .Write p => (c.Write ops p).1
  | .AddDataForReading data => c.AddDataForReading data
  | .GetDataForWriting => c.GetDataForWriting.1
  | .Flush => (c.Flush ops).1
  | .SetStream stream => c.SetStream stream

/-- The conn after a sequence of calls. -/
def CryptoStreamConn.run {S : Type} (ops : StreamOps S) (c : CryptoStreamConn S)
    (l : List (ConnOp S)) : CryptoStreamConn S :=
  l.foldl (CryptoStreamConn.step ops) c

/-- A sequence of `Write` calls: the conn afterwards and what each call
returned. -/
def CryptoStreamConn.writeAll {S : Type} (ops : StreamOps S) :
    CryptoStreamConn S → List (List Nat) → CryptoStreamConn S × List (Nat × Option StreamErr)
  | c, [] => (c, [])
  | c, p :: ps =>
    let r := c.Write ops p
    let rest := CryptoStreamConn.writeAll ops r.1 ps
    (rest.1, (r.2.1, r.2.2) :: rest.2)

/-- A `bytes.Buffer` used as the stream, as the tests do. -/
def bufferStream : StreamOps Buffer :=
  { Read := BufferRead, Write := BufferWrite }

/-! ## `tls_extension_handler_server.go`

What the handler gets from outside the sources is a parameter: the search of
the extension list (`el.Find`), the decoding of the extension body
(`syntax.Unmarshal`), `readTransportParamters`, the assignment to
`MaxStreams` and the identifier `statelessResetTokenParameterID`. The
channel `paramsChan` is the list of the values sent on it so far; a send
that blocks is outside the embedding. -/

/-- The struct `transportParameter`: a 16-bit identifier and a value. -/
structure transportParameter where
  Parameter : Nat
  Value : List Nat
  deriving DecidableEq, Repr

/-- The struct `clientHelloTransportParameters`. -/
structure clientHelloTransportParameters where
  InitialVersion : Nat
  NegotiatedVersion : Nat
  Parameters : List transportParameter
  deriving DecidableEq, Repr

/-- The two messages with which `Receive` raises `qerr.VersionNegotiationMismatch`. -/
inductive MismatchReason where
  /-- The message `Inconsistent negotiated version` -/
  | InconsistentNegotiatedVersion
  /-- The message `Client should have used the initial version` -/
  | ClientShouldHaveUsedInitialVersion
  deriving DecidableEq, Repr

/-- The errors `Receive` returns; `E` is the type of the errors that come
from `syntax.Unmarshal` and `readTransportParamters`. -/
inductive ReceiveErr (E : Type) where
  /-- The error `Unexpected QUIC extension in handshake message` with the type -/
  | UnexpectedExtension (hType : Nat)
  /-- The error `ClientHello didn't contain a QUIC extension` -/
  | MissingExtension
  /-- An error of `syntax.Unmarshal`, passed on -/
  | Unmarshal (e : E)
  /-- The error `qerr.VersionNegotiationMismatch` -/
  | VersionNegotiationMismatch (reason : MismatchReason)
  /-- The error `client sent a stateless reset token` -/
  | StatelessResetToken
  /-- An error of `readTransportParamters`, passed on -/
  | ReadTransportParameters (e : E)
  deriving DecidableEq, Repr

/-- The constant `mint.HandshakeTypeClientHello` of the TLS library. -/
def HandshakeTypeClientHello : Nat := 1

/-- The parts of `Receive` that lie outside the sources. `EL` is the type of
extension lists, `Data` of extension bodies, `TP` of `TransportParameters`. -/
structure ReceiveEnv (EL Data TP E : Type) where
  /-- The call `el.Find(ext)`: the body of the QUIC extension, if the list has one -/
  Find : EL → Option Data
  /-- The call `syntax.Unmarshal(ext.data, chtp)` -/
  Unmarshal : Data → Except E clientHelloTransportParameters
  /-- The function `readTransportParamters` -/
  readTransportParamters : List transportParameter → Except E TP
  /-- The assignment `params.MaxStreams = v` -/
  setMaxStreams : TP → Nat → TP
  /-- The constant `statelessResetTokenParameterID` -/
  statelessResetTokenParameterID : Nat

/-- The fields of `extensionHandlerServer` that `Receive` and
`getSupportedVersions` use; `paramsChan` holds what has been sent on the
channel, oldest first. -/
structure extensionHandlerServer (TP : Type) where
  paramsChan : List TP := []
  version : Nat
  supportedVersions : List Nat

/-- Modelled from the spec: `protocol.IsSupportedVersion` (package `protocol`
is not among the sources): "`initialVersion ∈ server.supportedVersions`". -/
def IsSupportedVersion (supported : List Nat) (v : Nat) : Bool :=
  decide (v ∈ supported)

/-- The loop `for _, p := range chtp.Parameters` of `Receive`: the error it
returns from, if any. -/
def checkNoResetToken {E : Type} (resetID : Nat) :
    List transportParameter → Option (ReceiveErr E)
  | [] => none
  | p :: ps =>
    if p.Parameter = resetID then some .StatelessResetToken
    else checkNoResetToken resetID ps

/-- Embedding of `extensionHandlerServer.Receive`: the handler afterwards and
the error returned (`none` for nil). -/
def extensionHandlerServer.Receive {EL Data TP E : Type} (env : ReceiveEnv EL Data TP E)
    (h : extensionHandlerServer TP) (hType : Nat) (el : EL) :
    extensionHandlerServer TP × Option (ReceiveErr E) :=
  let found := env.Find el
  if hType ≠ HandshakeTypeClientHello then
    if found.isSome then (h, some (.UnexpectedExtension hType)) else (h, none)
  else
    match found with
    | none => (h, some .MissingExtension)
    | some data =>
      match env.Unmarshal data with
      | .error e => (h, some (.Unmarshal e))
      | .ok chtp =>
        let initialVersion := chtp.InitialVersion
        let negotiatedVersion := chtp.NegotiatedVersion
        if negotiatedVersion ≠ h.version then
          (h, some (.VersionNegotiationMismatch .InconsistentNegotiatedVersion))
        else if initialVersion ≠ negotiatedVersion ∧
            IsSupportedVersion h.supportedVersions initialVersion = true then
          (h, some (.VersionNegotiationMismatch .ClientShouldHaveUsedInitialVersion))
        else
          match checkNoResetToken env.statelessResetTokenParameterID chtp.Parameters with
          | some e => (h, some e)
          | none =>
            match env.readTransportParamters chtp.Parameters with
            | .error e => (h, some (.ReadTransportParameters e))
            | .ok params =>
              let params := env.setMaxStreams params (2 ^ 32 - 1)
              ({ h with paramsChan := h.paramsChan ++ [params] }, none)

/-- One store `supportedVersions[j] = x` into the slice, a panic when `j` is
out of range. -/
def storeAt (arr : List Nat) (j x : Nat) : Except Err (List Nat) :=
  if j < arr.length then .ok (arr.set j x) else .error .IndexOutOfRange

/-- The loop `for _, v := range h.supportedVersions` of `getSupportedVersions`
on the slice `arr` and the index `j`. -/
def getSupportedVersionsLoop (randPos reservedVersion : Nat) :
    List Nat → List Nat → Nat → Except Err (List Nat × Nat)
  | [], arr, j => .ok (arr, j)
  | v :: vs, arr, j =>
    match (if j = randPos then
            (match storeAt arr j (reservedVersion % 2 ^ 32) with
             | .error e => .error e
             | .ok arr1 => .ok (arr1, j + 1))
           else (.ok (arr, j) : Except Err (List Nat × Nat))) with
    | .error e => .error e
    | .ok (arr1, j1) =>
      match storeAt arr1 j1 (v % 2 ^ 32) with
      | .error e => .error e
      | .ok arr2 => getSupportedVersionsLoop randPos reservedVersion vs arr2 (j1 + 1)

/-- Embedding of `extensionHandlerServer.getSupportedVersions`. The value of
`protocol.GenerateReservedVersion()` and the byte that `rand.Read` delivers
are inputs. -/
def extensionHandlerServer.getSupportedVersions {TP : Type} (h : extensionHandlerServer TP)
    (rnd reservedVersion : Nat) : Except Err (List Nat) :=
  let randPos := rnd % (h.supportedVersions.length + 1)
  let supportedVersions := List.replicate (h.supportedVersions.length + 1) 0
  match getSupportedVersionsLoop randPos reservedVersion h.supportedVersions
      supportedVersions 0 with
  | .error e => .error e
  | .ok (supportedVersions, _) =>
    if randPos = h.supportedVersions.length then
      storeAt supportedVersions randPos (reservedVersion % 2 ^ 32)
    else .ok supportedVersions

/-! ## The stateless server front-end (`server_tls.go`, not among the sources) -/

/-- What one call of `HandleInitial` does to the outside: the datagrams it
writes to the connection and the sessions it delivers on the session
channel. -/
structure InitialOutcome (Session : Type) where
  written : List Buffer := []
  sessions : List Session := []

/-- Modelled from the spec: `serverTLS.HandleInitial` (`server_tls.go` is not
among the sources). "`hdr.Version ∉ server.versions?` yes: emit
VersionNegotiation (§4.2) STOP": the reply is
`ComposeVersionNegotiation(connID, pn, versionOffered, versions)` of
`version_negotiation.go` with the fields of the header received, and it is
the only thing done. The path of a supported version (decrypt, TLS
handshake, Retry or Handshake reply, session) is the parameter `supported`. -/
def HandleInitial {Session : Type} (pt : PacketTypes) (versions : List Nat)
    (supported : Header → List Nat → InitialOutcome Session)
    (hdr : Header) (data : List Nat) (rnd reservedVersion : Nat) : InitialOutcome Session :=
  if IsSupportedVersion versions hdr.Version = false then
    { written :=
        [(ComposeVersionNegotiation pt hdr.ConnectionID hdr.PacketNumber hdr.Version
            versions rnd reservedVersion).getD []] }
  else supported hdr data

/-! ## Reference notions used in the statements -/

/-- The big-endian encoding of a 32-bit value: four bytes. -/
def be32 (v : Nat) : List Nat :=
  [v / 2 ^ 24 % 256, v / 2 ^ 16 % 256, v / 2 ^ 8 % 256, v % 256]

/-- The big-endian encoding of a 64-bit value: eight bytes. -/
def be64 (v : Nat) : List Nat :=
  [v / 2 ^ 56 % 256, v / 2 ^ 48 % 256, v / 2 ^ 40 % 256, v / 2 ^ 32 % 256,
   v / 2 ^ 24 % 256, v / 2 ^ 16 % 256, v / 2 ^ 8 % 256, v % 256]

/-- A list of versions written as consecutive big-endian 32-bit values
(`uint32(v)` for each). -/
def encodeVersions : List Nat → List Nat
  | [] => []
  | v :: vs => be32 (v % 2 ^ 32) ++ encodeVersions vs

/-- A byte sequence read as consecutive big-endian 32-bit values, in wire
order (a tail of fewer than four bytes is left out). -/
def decodeVersions : List Nat → List Nat
  | b1 :: b2 :: b3 :: b4 :: r =>
      (b1 * 2 ^ 24 + b2 * 2 ^ 16 + b3 * 2 ^ 8 + b4) :: decodeVersions r
  | _ => []

/-- The types a sender may put into a long header: `Initial`, `Handshake` or
`0RTT` for the client, `Retry` or `Handshake` for the server. -/
def maySend (pt : PacketTypes) (p : Perspective) (t : Nat) : Prop :=
  match p with
  | .Client => t = pt.Initial ∨ t = pt.Handshake ∨ t = pt.ZeroRTT
  | .Server => t = pt.Retry ∨ t = pt.Handshake

instance (pt : PacketTypes) (p : Perspective) (t : Nat) : Decidable (maySend pt p t) := by
  cases p <;> unfold maySend <;> infer_instance

/-- Modelled from the spec: what the spec fixes about the `PacketType`
constants of package `protocol` (not among the sources): five different
types, each of which `(T - 1) XOR 0xFF` encodes into a type byte with the
high bit set ("type (7 bits)"), that is, values from 1 to 128. -/
def PacketTypes.WellFormed (pt : PacketTypes) : Prop :=
  [pt.VersionNegotiation, pt.Initial, pt.Retry, pt.Handshake, pt.ZeroRTT].Nodup ∧
  ∀ t ∈ [pt.VersionNegotiation, pt.Initial, pt.Retry, pt.Handshake, pt.ZeroRTT],
    1 ≤ t ∧ t ≤ 128

instance (pt : PacketTypes) : Decidable pt.WellFormed := by
  unfold PacketTypes.WellFormed; infer_instance

/-- A choice of packet type constants that is well formed, for the examples. -/
def examplePacketTypes : PacketTypes :=
  { VersionNegotiation := 1, Initial := 2, Retry := 3, Handshake := 4, ZeroRTT := 5 }

/-! ## Example values -/

/-- A long header as the client writes it, for the examples. -/
def exampleLongHeader : Header :=
  { IsLongHeader := true, Typ := 2, ConnectionID := 0xdecafbad, Version := 0x1337,
    PacketNumber := 1, PacketNumberLen := 4 }

/-- A short header with an 8-byte connection ID and a 2-byte packet number. -/
def exampleShortHeader : Header :=
  { KeyPhase := 1, SpinBit := true, ConnectionID := 0xdecafbad, PacketNumber := 0x1234,
    PacketNumberLen := 2 }

/-- A version negotiation packet behind its type byte: connection ID 1,
version 0, two versions. -/
def exampleVersionNegotiationBody : Reader :=
  [0, 0, 0, 0, 0, 0, 0, 1, 0, 0, 0, 0, 1, 2, 3, 4, 5, 6, 7, 8]

/-- A client Initial behind its type byte `0xFE`: connection ID 1, version
`0x1337`, packet number 9. -/
def exampleInitialBody : Reader :=
  [0, 0, 0, 0, 0, 0, 0, 1, 0, 0, 0x13, 0x37, 0, 0, 0, 9]

/-- The header that `ComposeVersionNegotiation` builds and serialises: long
framing, `PacketNumberLen` left at its zero value. -/
def exampleComposedHeader : Header :=
  { IsLongHeader := true, Typ := 1, ConnectionID := 0, PacketNumber := 0, Version := 0x1337 }

/-- An environment for `Receive` in which an extension list is the decoded
QUIC extension, if any, and every decoding succeeds. -/
def exampleReceiveEnv : ReceiveEnv (Option clientHelloTransportParameters)
    clientHelloTransportParameters (List transportParameter) Unit :=
  { Find := fun el => el,
    Unmarshal := fun data => .ok data,
    readTransportParamters := fun ps => .ok ps,
    setMaxStreams := fun tp _ => tp,
    statelessResetTokenParameterID := 6 }

/-- A handler of a session of version 101 on a server that supports the
versions 101 and 39. -/
def exampleHandler : extensionHandlerServer (List transportParameter) :=
  { version := 101, supportedVersions := [101, 39] }

/-- A ClientHello extension of a client that started with version 39 and now
uses 101. -/
def exampleDowngradedHello : clientHelloTransportParameters :=
  { InitialVersion := 39, NegotiatedVersion := 101, Parameters := [] }

/-- A ClientHello extension that carries a stateless reset token as its
second parameter. -/
def exampleResetTokenHello : clientHelloTransportParameters :=
  { InitialVersion := 101, NegotiatedVersion := 101,
    Parameters := [{ Parameter := 1, Value := [0, 0, 1, 0] }, { Parameter := 6, Value := [42] }] }

/-- The header of the test of the repository: an Initial of version `0x1337`. -/
def exampleUnsupportedInitial : Header := { Version := 0x1337 }

/-- A stand-in for the path of a supported version, which does nothing. -/
def exampleSupportedPath : Header → List Nat → InitialOutcome Unit := fun _ _ => {}

/-! ## The position of the reserved version -/

/-- The index `randPos := int(b[0]) % (numVersions + 1)` that `writeVersions`
and `getSupportedVersions` compute from the random byte. -/
def randPos (numVersions rnd : Nat) : Nat := rnd % (numVersions + 1)

/-- The number of byte values, 0 to 255, that make the reserved version go to
position `i` of a list of `n` versions. -/
def positionCount (n i : Nat) : Nat := Nat.count (fun b => randPos n b = i) 256

/-! ## The wire length that the specification states -/

/-- The number of bytes a header takes on the wire: 17 with long framing,
otherwise the type byte, the connection ID if present, the packet number. -/
def wireLength (h : Header) : Nat :=
  if h.IsLongHeader then 17
  else 1 + (if h.OmitConnectionID then 0 else 8) + h.PacketNumberLen

/-! ## Auxiliary facts -/

theorem xor_255_of_lt (x : Nat) (hx : x < 256) : x ^^^ 255 = 255 - x := by
  interval_cases x <;> rfl

theorem typeByte_long (t : Nat) (h1 : 1 ≤ t) (h2 : t ≤ 128) :
    ((t + 255) % 256 ^^^ 255) % 256 = 256 - t := by
  have h3 : (t + 255) % 256 = t - 1 := by omega
  rw [h3, xor_255_of_lt _ (by omega)]
  omega

theorem and_128_pos (x : Nat) (h1 : 128 ≤ x) (h2 : x < 256) : x &&& 128 > 0 := by
  interval_cases x <;> decide

theorem ReadUint32_be32 (v : Nat) (r : Reader) :
    ReadUint32 (be32 v ++ r) = .ok (v % 2 ^ 32, r) := by
  simp only [be32, ReadUint32, List.cons_append, List.nil_append, Except.ok.injEq,
    Prod.mk.injEq, and_true]
  omega

theorem ReadUint64_be64 (v : Nat) (r : Reader) :
    ReadUint64 (be64 v ++ r) = .ok (v % 2 ^ 64, r) := by
  simp only [be64, ReadUint64, List.cons_append, List.nil_append, Except.ok.injEq,
    Prod.mk.injEq, and_true]
  omega

theorem writeLongHeader_eq (h : Header) (b : Buffer) :
    writeLongHeader h b =
      (b ++ ((((h.Typ + 255) % 256) ^^^ 0xFF) % 256 :: (be64 (h.ConnectionID % 2 ^ 64) ++
        (be32 (h.Version % 2 ^ 32) ++ (be32 (h.PacketNumber % 2 ^ 32) ++ [])))), none) := by
  simp [writeLongHeader, WriteByte, WriteUint64, WriteUint32, be64, be32]

theorem maySend_range (pt : PacketTypes) (hpt : pt.WellFormed) (p : Perspective) (t : Nat)
    (ht : maySend pt p t) : 1 ≤ t ∧ t ≤ 128 := by
  have hr := hpt.2
  simp only [List.mem_cons, List.mem_singleton, List.not_mem_nil, or_false,
    forall_eq_or_imp, forall_eq] at hr
  cases p with
  | Server => rcases ht with h | h <;> subst h <;> tauto
  | Client => rcases ht with h | h | h <;> subst h <;> tauto

/-! ## Long-header round trip -/

/-- C1: a long header with a non-zero 32-bit version, a packet number below
2^32, packet number length 4 and a type its sender may send (all other
fields zero; the connection ID may be any 64-bit value) is written without
error as 17 bytes, and parsing these bytes with the sender's perspective
consumes all of them and gives back the header. -/
theorem long_header_round_trip (pt : PacketTypes) (hpt : pt.WellFormed)
    (p : Perspective) (h : Header)
    (hLong : h.IsLongHeader = true)
    (hVer : h.Version ≠ 0) (hVer32 : h.Version < 2 ^ 32)
    (hPN : h.PacketNumber < 2 ^ 32) (hLen : h.PacketNumberLen = PacketNumberLen4)
    (hCid : h.ConnectionID < 2 ^ 64)
    (hTyp : maySend pt p h.Typ)
    (hOmit : h.OmitConnectionID = false) (hSV : h.SupportedVersions = [])
    (hVN : h.IsVersionNegotiation = false) (hKP : h.KeyPhase = 0)
    (hSpin : h.SpinBit = false) :
    (writeHeader h []).2 = none ∧ (writeHeader h []).1.length = 17 ∧
      parseHeader pt (writeHeader h []).1 p = .ok (h, []) := by
  obtain ⟨cid, om, pnl, pn, ver, sv, isvn, typ, lg, kp, spin⟩ := h
  simp only at hLong hVer hVer32 hPN hLen hCid hTyp hOmit hSV hVN hKP hSpin
  subst hLong hLen hOmit hSV hVN hKP hSpin
  obtain ⟨ht1, ht2⟩ := maySend_range pt hpt p typ hTyp
  have htb := typeByte_long typ ht1 ht2
  simp only [writeHeader, writeLongHeader_eq, if_true, List.nil_append]
  refine ⟨trivial, by simp [be64, be32], ?_⟩
  simp only [Nat.reduceXor] at htb ⊢
  rw [htb]
  have hpos : (256 - typ) &&& 128 > 0 := and_128_pos _ (by omega) (by omega)
  have hdec : ((256 - typ ^^^ 255) + 1) % 256 = typ := by
    rw [xor_255_of_lt _ (by omega)]; omega
  simp only [parseHeader, ReadByte, hpos, if_true, parseLongHeader, ReadUint64_be64,
    ReadUint32_be32, Nat.mod_mod, Nat.mod_eq_of_lt hVer32, Nat.mod_eq_of_lt hPN,
    Nat.mod_eq_of_lt hCid, hVer, if_false, hdec]
  cases p <;> simp only [maySend] at hTyp <;> simp [PacketNumberLen4] <;> tauto

/-- Witness of C1: the round trip at `exampleLongHeader`, sent by the client. -/
theorem long_header_round_trip_witness :
    (writeHeader exampleLongHeader []).2 = none ∧
    (writeHeader exampleLongHeader []).1.length = 17 ∧
    parseHeader examplePacketTypes (writeHeader exampleLongHeader []).1 Perspective.Client
      = .ok (exampleLongHeader, []) :=
  long_header_round_trip examplePacketTypes (by decide) Perspective.Client exampleLongHeader
    rfl (by decide) (by decide) (by decide) rfl (by decide) (by decide) rfl rfl rfl rfl rfl

/-! ## Short-header round trip -/

theorem ReadUintN_one (x : Nat) (hx : x < 256) (r : Reader) :
    ReadUintN (x :: r) 1 = .ok (x, r) := by
  simp only [ReadUintN, readUintNAux, ReadByte, Nat.zero_mul, Nat.zero_add, Except.ok.injEq,
    Prod.mk.injEq, and_true]
  omega

theorem ReadUintN_two (x y : Nat) (hx : x < 256) (hy : y < 256) (r : Reader) :
    ReadUintN (x :: y :: r) 2 = .ok (x * 256 + y, r) := by
  simp only [ReadUintN, readUintNAux, ReadByte, Nat.zero_mul, Nat.zero_add, Except.ok.injEq,
    Prod.mk.injEq, and_true]
  omega

theorem ReadUintN_four_be32 (v : Nat) (r : Reader) :
    ReadUintN (be32 v ++ r) 4 = .ok (v % 2 ^ 32, r) := by
  simp only [be32, ReadUintN, readUintNAux, ReadByte, List.cons_append, List.nil_append,
    Nat.zero_mul, Nat.zero_add, Except.ok.injEq, Prod.mk.injEq, and_true]
  omega

/-- The type byte that `writeShortHeader` composes decodes, bit by bit, to
the fields it was composed from. -/
theorem shortTypeByte_decode (h : Header)
    (hKP : h.KeyPhase = 0 ∨ h.KeyPhase = 1)
    (hLen : h.PacketNumberLen = 1 ∨ h.PacketNumberLen = 2 ∨ h.PacketNumberLen = 4) :
    ∃ tb, shortTypeByte h = some tb ∧ tb % 256 = tb ∧ ¬ (tb &&& 0x80 > 0) ∧
      decide (tb &&& 0x40 > 0) = !h.OmitConnectionID ∧
      (1 <<< ((tb &&& 0xF) ^^^ 0xF)) % 256 = h.PacketNumberLen ∧
      decide (tb &&& 0x10 ≠ 0) = h.SpinBit ∧
      (((tb &&& 0x20) >>> 5 : Nat) : Int) = h.KeyPhase := by
  obtain ⟨cid, om, pnl, pn, ver, sv, isvn, typ, lg, kp, spin⟩ := h
  simp only at hKP hLen
  rcases hKP with rfl | rfl <;> rcases hLen with rfl | rfl | rfl <;> cases spin <;>
    cases om <;>
    simp +decide [shortTypeByte, PacketNumberLen1, PacketNumberLen2, PacketNumberLen4]

/-- C2: a short header with key phase 0 or 1, packet number length 1, 2 or 4,
a packet number that fits this length and a zero connection ID when the
connection ID is omitted (all other fields zero) is written without error,
and parsing the bytes written, with either perspective, consumes all of
them and gives back the header. -/
theorem short_header_round_trip (pt : PacketTypes) (p : Perspective) (h : Header)
    (hShort : h.IsLongHeader = false)
    (hKP : h.KeyPhase = 0 ∨ h.KeyPhase = 1)
    (hLen : h.PacketNumberLen = 1 ∨ h.PacketNumberLen = 2 ∨ h.PacketNumberLen = 4)
    (hPN : h.PacketNumber < 2 ^ (8 * h.PacketNumberLen))
    (hCid : h.ConnectionID < 2 ^ 64)
    (hOmit : h.OmitConnectionID = true → h.ConnectionID = 0)
    (hVer : h.Version = 0) (hSV : h.SupportedVersions = [])
    (hVN : h.IsVersionNegotiation = false) (hTyp : h.Typ = 0) :
    (writeHeader h []).2 = none ∧
      parseHeader pt (writeHeader h []).1 p = .ok (h, []) := by
  obtain ⟨tb, htb, hmod, h80, h40, hsh, h10, h20⟩ := shortTypeByte_decode h hKP hLen
  obtain ⟨cid, om, pnl, pn, ver, sv, isvn, typ, lg, kp, spin⟩ := h
  simp only at hShort hKP hLen hPN hCid hOmit hVer hSV hVN hTyp h40 hsh h10 h20
  subst hShort hVer hSV hVN hTyp
  have h64 := ReadUint64_be64 cid
  have h32 := ReadUintN_four_be32 pn
  have h16 := ReadUintN_two (pn / 2 ^ 8 % 256) (pn % 256) (by omega) (by omega)
  have h8 := ReadUintN_one (pn % 256) (by omega)
  rw [Nat.mod_eq_of_lt hCid] at h64
  simp only [be64, be32, List.cons_append, List.nil_append, Nat.reducePow] at h64 h32 h16
  simp only [writeHeader, writeShortHeader, htb, WriteByte, hmod, parseHeader, ReadByte,
    List.nil_append, Bool.false_eq_true, if_false, Nat.mod_eq_of_lt hCid]
  refine ⟨trivial, ?_⟩
  subst h10 h20
  simp only [gt_iff_lt, not_lt, Nat.le_zero] at h80
  cases om
  · simp only [Bool.not_false, decide_eq_true_eq] at h40
    rcases hLen with rfl | rfl | rfl
    · have e : pn % 256 = pn := by omega
      simp only [e] at h8
      simp [parseShortHeader, PacketNumberLen1, WriteUint64, h64, h8, e, h80, h40, hsh]
    · have e : pn / 256 % 256 * 256 + pn % 256 = pn := by omega
      have e2 : pn % 65536 = pn := by omega
      simp only [e] at h16
      simp [parseShortHeader, PacketNumberLen1, PacketNumberLen2, WriteUint64, WriteUint16,
        h64, h16, e2, h80, h40, hsh]
    · have e : pn % 4294967296 = pn := by omega
      simp only [e] at h32
      simp [parseShortHeader, PacketNumberLen1, PacketNumberLen2, PacketNumberLen4,
        WriteUint64, WriteUint32, h64, h32, e, h80, h40, hsh]
  · have hc : cid = 0 := hOmit rfl
    subst hc
    simp only [Bool.not_true, decide_eq_false_iff_not, gt_iff_lt, not_lt, Nat.le_zero] at h40
    rcases hLen with rfl | rfl | rfl
    · have e : pn % 256 = pn := by omega
      simp only [e] at h8
      simp [parseShortHeader, PacketNumberLen1, h8, e, h80, h40, hsh]
    · have e : pn / 256 % 256 * 256 + pn % 256 = pn := by omega
      have e2 : pn % 65536 = pn := by omega
      simp only [e] at h16
      simp [parseShortHeader, PacketNumberLen1, PacketNumberLen2, WriteUint16, h16, e2,
        h80, h40, hsh]
    · have e : pn % 4294967296 = pn := by omega
      simp only [e] at h32
      simp [parseShortHeader, PacketNumberLen1, PacketNumberLen2, PacketNumberLen4,
        WriteUint32, h32, e, h80, h40, hsh]

/-- Witness of C2: the round trip at `exampleShortHeader`. -/
theorem short_header_round_trip_witness :
    (writeHeader exampleShortHeader []).2 = none ∧
    parseHeader examplePacketTypes (writeHeader exampleShortHeader []).1 Perspective.Server
      = .ok (exampleShortHeader, []) :=
  short_header_round_trip examplePacketTypes Perspective.Server exampleShortHeader
    rfl (by decide) (by decide) (by decide) (by decide) (by decide) rfl rfl rfl rfl

/-! ## Version negotiation: the version list -/

theorem encodeVersions_append (l1 l2 : List Nat) :
    encodeVersions (l1 ++ l2) = encodeVersions l1 ++ encodeVersions l2 := by
  induction l1 with
  | nil => rfl
  | cons v vs ih => simp [encodeVersions, ih]

theorem encodeVersions_length (l : List Nat) : (encodeVersions l).length = 4 * l.length := by
  induction l with
  | nil => rfl
  | cons v vs ih => simp [encodeVersions, be32, ih]; omega

theorem WriteUint32_eq (b : Buffer) (i : Nat) : WriteUint32 b i = b ++ be32 i := rfl

/-- The range loop of `writeVersions`, started at index `i`: once the index
has passed `randPos` nothing is inserted any more, before that the reserved
version goes in front of the element with index `randPos`, if there is one. -/
theorem writeVersionsLoop_eq (k r : Nat) (vs : List Nat) :
    ∀ (i : Nat) (buf : Buffer),
      writeVersionsLoop k r vs i buf =
        buf ++ encodeVersions
          (if i ≤ k ∧ k - i < vs.length then vs.take (k - i) ++ r :: vs.drop (k - i) else vs) := by
  induction vs with
  | nil => intro i buf; simp [writeVersionsLoop, encodeVersions]
  | cons v vs ih =>
    intro i buf
    simp only [writeVersionsLoop, WriteUint32_eq, ih, List.length_cons]
    by_cases hik : i = k
    · subst hik
      simp [encodeVersions]
    · by_cases hlt : i < k
      · obtain ⟨d, hd⟩ : ∃ d, k - i = d + 1 := ⟨k - i - 1, by omega⟩
        have hd2 : k - (i + 1) = d := by omega
        have c1 : (i + 1 ≤ k ∧ d < vs.length) ↔ (i ≤ k ∧ d + 1 < vs.length + 1) := by
          constructor <;> intro h <;> constructor <;> omega
        simp only [hik, if_false, hd, hd2, List.take_succ_cons, List.drop_succ_cons]
        by_cases hc : i + 1 ≤ k ∧ d < vs.length
        · rw [if_pos hc, if_pos (c1.mp hc)]
          simp [encodeVersions]
        · rw [if_neg hc, if_neg (fun h => hc (c1.mpr h))]
          simp [encodeVersions]
      · have h1 : ¬ (i + 1 ≤ k ∧ k - (i + 1) < vs.length) := by omega
        have h2 : ¬ (i ≤ k ∧ k - i < vs.length + 1) := by omega
        simp [hik, h1, h2, encodeVersions]

/-- What `writeVersions` appends: the versions with the reserved version
inserted at index `rnd % (len + 1)`. -/
theorem writeVersions_eq (buf : Buffer) (V : List Nat) (rnd r : Nat) :
    writeVersions buf V rnd r =
      buf ++ encodeVersions
        (V.take (rnd % (V.length + 1)) ++ r :: V.drop (rnd % (V.length + 1))) := by
  have hk : rnd % (V.length + 1) < V.length + 1 := Nat.mod_lt _ (by omega)
  simp only [writeVersions, writeVersionsLoop_eq, Nat.zero_le, true_and, Nat.sub_zero,
    WriteUint32_eq]
  by_cases hn : rnd % (V.length + 1) = V.length
  · rw [hn]
    simp [encodeVersions_append, encodeVersions]
  · have hlt : rnd % (V.length + 1) < V.length := by omega
    simp [hn, hlt]

theorem eraseIdx_middle (l1 l2 : List Nat) (x : Nat) :
    (l1 ++ x :: l2).eraseIdx l1.length = l1 ++ l2 := by
  induction l1 with
  | nil => rfl
  | cons a l1 ih => simp [List.eraseIdx, ih]

/-- C5: `writeVersions` appends exactly `n + 1` big-endian 32-bit values, the
list `V` with the reserved version `r` inserted at index `b mod (n + 1)`;
erasing that entry gives back `V`, and a zero byte puts `r` first. -/
theorem writeVersions_inserts_reserved (buf : Buffer) (V : List Nat) (b r : Nat) :
    writeVersions buf V b r =
        buf ++ encodeVersions
          (V.take (b % (V.length + 1)) ++ r :: V.drop (b % (V.length + 1))) ∧
      (V.take (b % (V.length + 1)) ++ r :: V.drop (b % (V.length + 1))).length
        = V.length + 1 ∧
      (writeVersions buf V b r).length = buf.length + 4 * (V.length + 1) ∧
      (V.take (b % (V.length + 1)) ++ r :: V.drop (b % (V.length + 1))).eraseIdx
        (b % (V.length + 1)) = V ∧
      writeVersions buf V 0 r = buf ++ encodeVersions (r :: V) := by
  have hk : b % (V.length + 1) < V.length + 1 := Nat.mod_lt _ (by omega)
  have hlen : (V.take (b % (V.length + 1)) ++ r :: V.drop (b % (V.length + 1))).length
      = V.length + 1 := by
    simp only [List.length_append, List.length_take, List.length_cons, List.length_drop]
    omega
  refine ⟨writeVersions_eq buf V b r, hlen, ?_, ?_, ?_⟩
  · rw [writeVersions_eq, List.length_append, encodeVersions_length, hlen]
  · have ht : (V.take (b % (V.length + 1))).length = b % (V.length + 1) := by
      simp only [List.length_take]; omega
    have he := eraseIdx_middle (V.take (b % (V.length + 1))) (V.drop (b % (V.length + 1))) r
    rw [ht] at he
    rw [he, List.take_append_drop]
  · rw [writeVersions_eq]
    simp

/-! ## Parsing a version negotiation packet -/

theorem ReadUint32_length {b b1 : Reader} {v : Nat} (h : ReadUint32 b = .ok (v, b1)) :
    b.length = b1.length + 4 := by
  match b, h with
  | c1 :: c2 :: c3 :: c4 :: r, h =>
    simp only [ReadUint32, Except.ok.injEq, Prod.mk.injEq] at h
    simp [← h.2]

theorem ReadUint64_length {b b1 : Reader} {v : Nat} (h : ReadUint64 b = .ok (v, b1)) :
    b.length = b1.length + 8 := by
  match b, h with
  | c1 :: c2 :: c3 :: c4 :: c5 :: c6 :: c7 :: c8 :: r, h =>
    simp only [ReadUint64, Except.ok.injEq, Prod.mk.injEq] at h
    simp [← h.2]

theorem ReadUint32_ok_of_length (b : Reader) (h : 4 ≤ b.length) :
    ∃ v b1, ReadUint32 b = .ok (v, b1) := by
  match b, h with
  | c1 :: c2 :: c3 :: c4 :: r, _ => exact ⟨_, _, rfl⟩

theorem set_length_append (pre tl : List Nat) (x v : Nat) :
    (pre ++ x :: tl).set pre.length v = pre ++ v :: tl := by
  induction pre with
  | nil => rfl
  | cons a pre ih => simp [List.set, ih]

/-- The loop that fills `SupportedVersions`, entered at index `pre.length` with
a slice that has room for one version per four bytes left: it stores the
bytes left, read as 32-bit values, behind `pre`, or fails when their number
is not a multiple of four. It never indexes out of range and never runs out
of fuel. -/
theorem readSupportedVersions_eq (fuel : Nat) :
    ∀ (b : Reader) (pre tl : List Nat) (h : Header), b.length < fuel →
      tl.length = b.length / 4 →
      readSupportedVersions fuel b pre.length { h with SupportedVersions := pre ++ tl } =
        if b.length % 4 = 0 then
          .ok ({ h with SupportedVersions := pre ++ decodeVersions b }, [])
        else .error .InvalidVersionNegotiationPacket := by
  induction fuel with
  | zero => intro b pre tl h hf; omega
  | succ fuel ih =>
    intro b pre tl h hf htl
    match b, hf, htl with
    | [], _, htl =>
      have : tl = [] := List.length_eq_zero.mp (by simpa using htl)
      subst this
      simp [readSupportedVersions, decodeVersions]
    | [_], _, _ => simp [readSupportedVersions, ReadUint32]
    | [_, _], _, _ => simp [readSupportedVersions, ReadUint32]
    | [_, _, _], _, _ => simp [readSupportedVersions, ReadUint32]
    | c1 :: c2 :: c3 :: c4 :: r, hf, htl =>
      have hr : (c1 :: c2 :: c3 :: c4 :: r).length = r.length + 4 := by simp
      rw [hr] at hf htl
      have htl2 : tl.length = r.length / 4 + 1 := by omega
      obtain ⟨x, tl1, rfl⟩ : ∃ x tl1, tl = x :: tl1 := by
        cases tl with
        | nil => simp at htl2
        | cons x tl1 => exact ⟨x, tl1, rfl⟩
      have hi : pre.length < (pre ++ x :: tl1).length := by simp
      have ih1 := ih r (pre ++ [c1 * 2 ^ 24 + c2 * 2 ^ 16 + c3 * 2 ^ 8 + c4]) tl1 h
        (by omega) (by simpa using htl2)
      simp only [List.length_append, List.length_singleton, List.append_assoc,
        List.singleton_append] at ih1
      have hmod : (r.length + 4) % 4 = r.length % 4 := by omega
      simp only [readSupportedVersions, ReadUint32, hr, hmod, hi, if_true, set_length_append,
        ih1, decodeVersions, gt_iff_lt, Nat.succ_pos, Nat.zero_lt_succ, Nat.lt_add_left_iff_pos,
        Nat.add_pos_iff_pos_or_pos, Nat.ofNat_pos, or_true]

/-- The version negotiation branch of `parseLongHeader`, for a packet sent by
the server, in closed form. -/
theorem parseLongHeader_version_zero (pt : PacketTypes) (typeByte connID : Nat)
    (b b1 rest : Reader)
    (h1 : ReadUint64 b = .ok (connID, b1)) (h2 : ReadUint32 b1 = .ok (0, rest)) :
    parseLongHeader pt b Perspective.Server typeByte =
      if rest.length = 0 then .error .InvalidVersionNegotiationPacket
      else if rest.length % 4 = 0 then
        .ok ({ ConnectionID := connID, Version := 0, IsVersionNegotiation := true,
               SupportedVersions := decodeVersions rest }, [])
      else .error .InvalidVersionNegotiationPacket := by
  have hloop := readSupportedVersions_eq (rest.length + 1) rest []
    (List.replicate (rest.length / 4) 0)
    { ConnectionID := connID, Version := 0, IsVersionNegotiation := true }
    (by omega) (by simp)
  simp only [List.length_nil, List.nil_append] at hloop
  simp only [parseLongHeader, h1, h2, if_true, reduceCtorEq, if_false, hloop]

/-- C6: a long-header packet sent by the server whose version field is 0 is
parsed to `InvalidVersionNegotiationPacket` exactly when the number of bytes
after the version field is 0 or not a multiple of 4; otherwise the parse
succeeds with `IsVersionNegotiation` set and `SupportedVersions` the bytes
left, read as big-endian 32-bit values in wire order, all consumed. In no
case does the parser index `SupportedVersions` out of range. -/
theorem parseLongHeader_version_negotiation (pt : PacketTypes) (typeByte connID : Nat)
    (b b1 rest : Reader)
    (h1 : ReadUint64 b = .ok (connID, b1)) (h2 : ReadUint32 b1 = .ok (0, rest)) :
    (parseLongHeader pt b Perspective.Server typeByte
        = .error .InvalidVersionNegotiationPacket ↔
      (rest.length = 0 ∨ rest.length % 4 ≠ 0)) ∧
    (¬ (rest.length = 0 ∨ rest.length % 4 ≠ 0) →
      parseLongHeader pt b Perspective.Server typeByte =
        .ok ({ ConnectionID := connID, Version := 0, IsVersionNegotiation := true,
               SupportedVersions := decodeVersions rest }, [])) ∧
    parseLongHeader pt b Perspective.Server typeByte ≠ .error .IndexOutOfRange := by
  have hp := parseLongHeader_version_zero pt typeByte connID b b1 rest h1 h2
  rw [hp]
  by_cases h0 : rest.length = 0
  · simp [h0]
  · by_cases h4 : rest.length % 4 = 0
    · simp [h0, h4]
    · simp [h0, h4]

/-- Witness of C6: a version list of eight bytes is read as two versions. -/
theorem parseLongHeader_version_negotiation_witness :
    (parseLongHeader examplePacketTypes exampleVersionNegotiationBody Perspective.Server 0xFF
        = .error .InvalidVersionNegotiationPacket ↔
      (([1, 2, 3, 4, 5, 6, 7, 8] : Reader).length = 0 ∨
        ([1, 2, 3, 4, 5, 6, 7, 8] : Reader).length % 4 ≠ 0)) ∧
    (¬ (([1, 2, 3, 4, 5, 6, 7, 8] : Reader).length = 0 ∨
        ([1, 2, 3, 4, 5, 6, 7, 8] : Reader).length % 4 ≠ 0) →
      parseLongHeader examplePacketTypes exampleVersionNegotiationBody Perspective.Server 0xFF =
        .ok ({ ConnectionID := 1, Version := 0, IsVersionNegotiation := true,
               SupportedVersions := decodeVersions [1, 2, 3, 4, 5, 6, 7, 8] }, [])) ∧
    parseLongHeader examplePacketTypes exampleVersionNegotiationBody Perspective.Server 0xFF
      ≠ .error .IndexOutOfRange :=
  parseLongHeader_version_negotiation examplePacketTypes 0xFF 1 exampleVersionNegotiationBody
    [0, 0, 0, 0, 1, 2, 3, 4, 5, 6, 7, 8] [1, 2, 3, 4, 5, 6, 7, 8] (by decide) (by decide)

/-! ## Validation of the packet type against the sender -/

/-- C7: on a long-header packet of at least 17 bytes (16 behind the type
byte) with a non-zero version field, `parseLongHeader` succeeds exactly when
the decoded type is one the sender may send (`Initial`, `Handshake`, `0RTT`
for the client; `Retry`, `Handshake` for the server), and fails with
`InvalidPacketHeader`, echoing the type, in every other case. -/
theorem parseLongHeader_type_validation (pt : PacketTypes) (sentBy : Perspective)
    (typeByte connID v : Nat) (b b1 b2 : Reader)
    (hlen : 16 ≤ b.length)
    (h1 : ReadUint64 b = .ok (connID, b1)) (h2 : ReadUint32 b1 = .ok (v, b2))
    (hv : v ≠ 0) :
    ((∃ res, parseLongHeader pt b sentBy typeByte = .ok res) ↔
      maySend pt sentBy (((typeByte ^^^ 0xff) + 1) % 256)) ∧
    (¬ maySend pt sentBy (((typeByte ^^^ 0xff) + 1) % 256) →
      parseLongHeader pt b sentBy typeByte =
        .error (.InvalidPacketHeader (((typeByte ^^^ 0xff) + 1) % 256))) := by
  have l1 := ReadUint64_length h1
  have l2 := ReadUint32_length h2
  obtain ⟨pn, b3, h3⟩ := ReadUint32_ok_of_length b2 (by omega)
  cases sentBy with
  | Server =>
    by_cases hR : ((typeByte ^^^ 0xff) + 1) % 256 = pt.Retry
    · simp [parseLongHeader, h1, h2, h3, hv, maySend, hR]
    · by_cases hH : ((typeByte ^^^ 0xff) + 1) % 256 = pt.Handshake
      · simp [parseLongHeader, h1, h2, h3, hv, maySend, hH]
      · simp [parseLongHeader, h1, h2, h3, hv, maySend, hR, hH]
  | Client =>
    by_cases hI : ((typeByte ^^^ 0xff) + 1) % 256 = pt.Initial
    · simp [parseLongHeader, h1, h2, h3, hv, maySend, hI]
    · by_cases hH : ((typeByte ^^^ 0xff) + 1) % 256 = pt.Handshake
      · simp [parseLongHeader, h1, h2, h3, hv, maySend, hH]
      · by_cases hZ : ((typeByte ^^^ 0xff) + 1) % 256 = pt.ZeroRTT
        · simp [parseLongHeader, h1, h2, h3, hv, maySend, hZ]
        · simp [parseLongHeader, h1, h2, h3, hv, maySend, hI, hH, hZ]

/-- Witness of C7: the Initial is accepted from the client, its type being
`Initial`. -/
theorem parseLongHeader_type_validation_witness :
    ((∃ res, parseLongHeader examplePacketTypes exampleInitialBody Perspective.Client 0xFE
        = .ok res) ↔
      maySend examplePacketTypes Perspective.Client (((0xFE ^^^ 0xff) + 1) % 256)) ∧
    (¬ maySend examplePacketTypes Perspective.Client (((0xFE ^^^ 0xff) + 1) % 256) →
      parseLongHeader examplePacketTypes exampleInitialBody Perspective.Client 0xFE =
        .error (.InvalidPacketHeader (((0xFE ^^^ 0xff) + 1) % 256))) :=
  parseLongHeader_type_validation examplePacketTypes Perspective.Client 0xFE 1 0x1337
    exampleInitialBody [0, 0, 0x13, 0x37, 0, 0, 0, 9] [0, 0, 0, 9]
    (by decide) (by decide) (by decide) (by decide)

/-! ## The version negotiation packet that the server composes -/

theorem be32_mod (v : Nat) : be32 (v % 2 ^ 32) = be32 v := by
  simp only [be32, List.cons.injEq, and_true]
  omega

theorem be64_mod (v : Nat) : be64 (v % 2 ^ 64) = be64 v := by
  simp only [be64, List.cons.injEq, and_true]
  omega

/-- The bytes of `ComposeVersionNegotiation`: the long header of 17 bytes,
then the version list with the reserved version in it. -/
theorem ComposeVersionNegotiation_eq (pt : PacketTypes) (c p v : Nat) (V : List Nat)
    (rnd r : Nat) :
    ComposeVersionNegotiation pt c p v V rnd r =
      some ((((pt.VersionNegotiation + 255) % 256) ^^^ 0xFF) % 256 ::
        (be64 c ++ (be32 v ++ (be32 p ++ encodeVersions
          (V.take (rnd % (V.length + 1)) ++ r :: V.drop (rnd % (V.length + 1))))))) := by
  simp only [ComposeVersionNegotiation, writeHeader, if_true, writeLongHeader_eq,
    writeVersions_eq, be32_mod, be64_mod, List.nil_append, List.append_nil, List.cons_append,
    List.append_assoc]

/-- C4: `ComposeVersionNegotiation(c, p, v, V)` returns `17 + 4 * (n + 1)`
bytes: the type byte of `PacketTypeVersionNegotiation` (the byte
`(T - 1) XOR 0xFF`, which decodes to that type again), `c` in 8 big-endian
bytes, the offered version `v` itself in 4, `p` in 4, then `n + 1` big-endian
32-bit versions. -/
theorem ComposeVersionNegotiation_layout (pt : PacketTypes) (c p v : Nat) (V : List Nat)
    (rnd r : Nat) :
    ∃ typeByte versions,
      ComposeVersionNegotiation pt c p v V rnd r =
        some (typeByte :: (be64 c ++ (be32 v ++ (be32 p ++ encodeVersions versions)))) ∧
      typeByte = (((pt.VersionNegotiation + 255) % 256) ^^^ 0xFF) % 256 ∧
      ((typeByte ^^^ 0xff) + 1) % 256 = pt.VersionNegotiation % 256 ∧
      versions.length = V.length + 1 ∧
      (typeByte :: (be64 c ++ (be32 v ++ (be32 p ++ encodeVersions versions)))).length
        = 17 + 4 * (V.length + 1) := by
  have hk : rnd % (V.length + 1) < V.length + 1 := Nat.mod_lt _ (by omega)
  have hlen : (V.take (rnd % (V.length + 1)) ++ r :: V.drop (rnd % (V.length + 1))).length
      = V.length + 1 := by
    simp only [List.length_append, List.length_take, List.length_cons, List.length_drop]
    omega
  refine ⟨_, _, ComposeVersionNegotiation_eq pt c p v V rnd r, rfl, ?_, hlen, ?_⟩
  · have hx : (pt.VersionNegotiation + 255) % 256 < 256 := Nat.mod_lt _ (by omega)
    have e1 := xor_255_of_lt _ hx
    have e2 : (255 - (pt.VersionNegotiation + 255) % 256) % 256
        = 255 - (pt.VersionNegotiation + 255) % 256 := Nat.mod_eq_of_lt (by omega)
    have e3 := xor_255_of_lt (255 - (pt.VersionNegotiation + 255) % 256) (by omega)
    rw [e1, e2, e3]
    omega
  · simp only [List.length_cons, List.length_append, encodeVersions_length, hlen]
    simp [be64, be32]
    omega

theorem decodeVersions_be32 (x : Nat) (rest : List Nat) :
    decodeVersions (be32 x ++ rest) = x % 2 ^ 32 :: decodeVersions rest := by
  simp only [be32, List.cons_append, List.nil_append, decodeVersions, List.cons.injEq]
  refine ⟨?_, rfl⟩
  omega

theorem decodeVersions_encodeVersions (l : List Nat) :
    decodeVersions (encodeVersions l) = l.map (fun v => v % 2 ^ 32) := by
  induction l with
  | nil => rfl
  | cons v vs ih => simp [encodeVersions, decodeVersions_be32, ih]

theorem be32_length (x : Nat) : (be32 x).length = 4 := rfl

/-- The datagram of `ComposeVersionNegotiation` under `parseHeader`, for a
packet sent by the server: rejected when the version written is not 0,
read as a version list that starts with the packet number when it is 0, and
in neither case a header of type `VersionNegotiation`. -/
theorem parseHeader_of_composed (pt : PacketTypes) (hpt : pt.WellFormed)
    (c p v : Nat) (V : List Nat) (rnd r : Nat) :
    ∃ pkt, ComposeVersionNegotiation pt c p v V rnd r = some pkt ∧
      (v % 2 ^ 32 ≠ 0 → parseHeader pt pkt Perspective.Server =
        .error (.InvalidPacketHeader pt.VersionNegotiation)) ∧
      (v % 2 ^ 32 = 0 → parseHeader pt pkt Perspective.Server =
        .ok ({ ConnectionID := c % 2 ^ 64, Version := 0, IsVersionNegotiation := true,
               SupportedVersions := p % 2 ^ 32 ::
                 (V.take (rnd % (V.length + 1)) ++ r :: V.drop (rnd % (V.length + 1))).map
                   (fun x => x % 2 ^ 32) }, [])) ∧
      (∀ h rest, parseHeader pt pkt Perspective.Server = .ok (h, rest) →
        h.Typ ≠ pt.VersionNegotiation) := by
  refine ⟨_, ComposeVersionNegotiation_eq pt c p v V rnd r, ?_⟩
  obtain ⟨hnd, hr⟩ := hpt
  simp only [List.mem_cons, List.mem_singleton, List.not_mem_nil, or_false,
    forall_eq_or_imp, forall_eq] at hr
  simp only [List.nodup_cons, List.mem_cons, List.mem_singleton, List.not_mem_nil, or_false,
    not_or, List.nodup_nil, and_true, not_false_eq_true] at hnd
  obtain ⟨ht1, ht2⟩ := hr.1
  have htb := typeByte_long pt.VersionNegotiation ht1 ht2
  have hpos : (256 - pt.VersionNegotiation) &&& 128 > 0 :=
    and_128_pos _ (by omega) (by omega)
  have hdec : ((256 - pt.VersionNegotiation ^^^ 255) + 1) % 256 = pt.VersionNegotiation := by
    rw [xor_255_of_lt _ (by omega)]; omega
  simp only [Nat.reduceXor] at htb ⊢
  rw [htb]
  have hA : v % 2 ^ 32 ≠ 0 → parseHeader pt
      ((256 - pt.VersionNegotiation) :: (be64 c ++ (be32 v ++ (be32 p ++ encodeVersions
        (V.take (rnd % (V.length + 1)) ++ r :: V.drop (rnd % (V.length + 1)))))))
      Perspective.Server = .error (.InvalidPacketHeader pt.VersionNegotiation) := by
    intro hv
    simp only [parseHeader, ReadByte, hpos, if_true, parseLongHeader, ReadUint64_be64,
      ReadUint32_be32, hv, if_false, hdec]
    simp [hnd.1.2.1, hnd.1.2.2.1]
  have hB : v % 2 ^ 32 = 0 → parseHeader pt
      ((256 - pt.VersionNegotiation) :: (be64 c ++ (be32 v ++ (be32 p ++ encodeVersions
        (V.take (rnd % (V.length + 1)) ++ r :: V.drop (rnd % (V.length + 1)))))))
      Perspective.Server =
        .ok ({ ConnectionID := c % 2 ^ 64, Version := 0, IsVersionNegotiation := true,
               SupportedVersions := p % 2 ^ 32 ::
                 (V.take (rnd % (V.length + 1)) ++ r :: V.drop (rnd % (V.length + 1))).map
                   (fun x => x % 2 ^ 32) }, []) := by
    intro hv
    have h2 := ReadUint32_be32 v (be32 p ++ encodeVersions
        (V.take (rnd % (V.length + 1)) ++ r :: V.drop (rnd % (V.length + 1))))
    rw [hv] at h2
    have hz := parseLongHeader_version_zero pt (256 - pt.VersionNegotiation) _ _ _ _
      (ReadUint64_be64 c _) h2
    have hl : (be32 p ++ encodeVersions
        (V.take (rnd % (V.length + 1)) ++ r :: V.drop (rnd % (V.length + 1)))).length
          = 4 + 4 * (V.take (rnd % (V.length + 1)) ++ r ::
              V.drop (rnd % (V.length + 1))).length := by
      rw [List.length_append, be32_length, encodeVersions_length]
    have hl0 : ¬ (4 + 4 * (V.take (rnd % (V.length + 1)) ++ r ::
              V.drop (rnd % (V.length + 1))).length = 0) := by omega
    have hl4 : (4 + 4 * (V.take (rnd % (V.length + 1)) ++ r ::
              V.drop (rnd % (V.length + 1))).length) % 4 = 0 := by omega
    simp only [parseHeader, ReadByte, hpos, if_true, hz, hl, hl0, hl4, if_false,
      decodeVersions_be32, decodeVersions_encodeVersions]
  refine ⟨hA, hB, ?_⟩
  intro h rest hok
  by_cases hv : v % 2 ^ 32 = 0
  · rw [hB hv] at hok
    simp only [Except.ok.injEq, Prod.mk.injEq] at hok
    rw [← hok.1]
    simp only
    omega
  · rw [hA hv] at hok
    simp at hok

/-- Evaluation of the code for C3: the datagram of `ComposeVersionNegotiation`,
parsed as sent by the server, is not a header of type `VersionNegotiation`.
With an offered version other than 0 (the only kind the server answers) the
version field is not 0, the packet is taken for an ordinary long header and
rejected with `InvalidPacketHeader`, its type being neither `Retry` nor
`Handshake`. With offered version 0 the parse succeeds, but `Type` stays 0
and the packet number is read as the first supported version. -/
theorem ComposeVersionNegotiation_parse (pt : PacketTypes) (hpt : pt.WellFormed)
    (c p v : Nat) (V : List Nat) (rnd r : Nat) :
    ∃ pkt, ComposeVersionNegotiation pt c p v V rnd r = some pkt ∧
      (v % 2 ^ 32 ≠ 0 → parseHeader pt pkt Perspective.Server =
        .error (.InvalidPacketHeader pt.VersionNegotiation)) ∧
      (v % 2 ^ 32 = 0 → parseHeader pt pkt Perspective.Server =
        .ok ({ ConnectionID := c % 2 ^ 64, Version := 0, IsVersionNegotiation := true,
               SupportedVersions := p % 2 ^ 32 ::
                 (V.take (rnd % (V.length + 1)) ++ r :: V.drop (rnd % (V.length + 1))).map
                   (fun x => x % 2 ^ 32) }, [])) ∧
      (∀ h rest, parseHeader pt pkt Perspective.Server = .ok (h, rest) →
        h.Typ ≠ pt.VersionNegotiation) :=
  parseHeader_of_composed pt hpt c p v V rnd r

/-- Witness of C3: the answer to an Initial of version `0x1337` (connection
ID 0, packet number 0, one supported version) is rejected by the parser. -/
theorem ComposeVersionNegotiation_parse_witness :
    ∃ pkt, ComposeVersionNegotiation examplePacketTypes 0 0 0x1337 [101] 0 0x1a2a3a4a
        = some pkt ∧
      parseHeader examplePacketTypes pkt Perspective.Server =
        .error (.InvalidPacketHeader examplePacketTypes.VersionNegotiation) :=
  match ComposeVersionNegotiation_parse examplePacketTypes (by decide) 0 0 0x1337 [101] 0
      0x1a2a3a4a with
  | ⟨pkt, h1, h2, _, _⟩ => ⟨pkt, h1, h2 (by decide)⟩

/-! ## The packet number length of a parsed short header -/

/-- Evaluation of the code for C8: the type byte `0x0C` (high bit clear, low
nibble `0xC`) followed by eight bytes is parsed without error, to a header
with `PacketNumberLen = 8`, which `writeShortHeader` and `getHeaderLength`
then refuse as an invalid packet number length. -/
theorem parseShortHeader_accepts_nibble_0xC :
    parseShortHeader [1, 2, 3, 4, 5, 6, 7, 8] 0x0C =
        .ok ({ OmitConnectionID := true, PacketNumber := 0x0102030405060708,
               PacketNumberLen := 8 }, []) ∧
      (writeShortHeader { OmitConnectionID := true, PacketNumber := 0x0102030405060708,
                          PacketNumberLen := 8 } []).2 = some (.InvalidPacketNumberLen 8) ∧
      getHeaderLength { OmitConnectionID := true, PacketNumber := 0x0102030405060708,
                        PacketNumberLen := 8 } = .error (.InvalidPacketNumberLen 8) := by
  decide

/-! ## Serialisation and the packet number length -/

theorem shortTypeByte_eq_none_iff (h : Header) :
    shortTypeByte h = none ↔
      (h.PacketNumberLen ≠ 1 ∧ h.PacketNumberLen ≠ 2 ∧ h.PacketNumberLen ≠ 4) := by
  unfold shortTypeByte
  simp only [PacketNumberLen1, PacketNumberLen2, PacketNumberLen4]
  by_cases h1 : h.PacketNumberLen = 1
  · simp [h1]
  · by_cases h2 : h.PacketNumberLen = 2
    · simp [h2]
    · by_cases h4 : h.PacketNumberLen = 4
      · simp [h4]
      · simp [h1, h2, h4]

/-- The function `writeShortHeader` fails exactly in the `default` case of its switch, and
then leaves the buffer as it was. -/
theorem writeShortHeader_error_iff (h : Header) (b : Buffer) :
    ((writeShortHeader h b).2 ≠ none ↔
      (h.PacketNumberLen ≠ 1 ∧ h.PacketNumberLen ≠ 2 ∧ h.PacketNumberLen ≠ 4)) ∧
    ((h.PacketNumberLen ≠ 1 ∧ h.PacketNumberLen ≠ 2 ∧ h.PacketNumberLen ≠ 4) →
      writeShortHeader h b = (b, some (.InvalidPacketNumberLen h.PacketNumberLen))) := by
  rw [← shortTypeByte_eq_none_iff]
  unfold writeShortHeader
  cases hs : shortTypeByte h with
  | none => simp
  | some tb => simp

/-- Counterexample to C9 as stated: a long header whose `PacketNumberLen` is
0, hence none of 1, 2, 4, is serialised without error. -/
theorem writeHeader_long_ignores_packetNumberLen :
    exampleComposedHeader.PacketNumberLen ≠ 1 ∧ exampleComposedHeader.PacketNumberLen ≠ 2 ∧
      exampleComposedHeader.PacketNumberLen ≠ 4 ∧
      writeHeader exampleComposedHeader [] =
        ([0xFF, 0, 0, 0, 0, 0, 0, 0, 0, 0, 0, 0x13, 0x37, 0, 0, 0, 0], none) := by
  decide

/-- C9, amended: a header with short framing whose `PacketNumberLen` is not
1, 2 or 4 is not serialised, `writeHeader` fails with the invalid packet
number length error; a header with long framing is serialised without
error whatever its `PacketNumberLen`, which has no influence on the bytes
written. -/
theorem writeHeader_invalid_packetNumberLen (h : Header) (b : Buffer) :
    (h.IsLongHeader = false →
      (h.PacketNumberLen ≠ 1 ∧ h.PacketNumberLen ≠ 2 ∧ h.PacketNumberLen ≠ 4) →
      (writeHeader h b).2 = some (.InvalidPacketNumberLen h.PacketNumberLen)) ∧
    (h.IsLongHeader = true → (writeHeader h b).2 = none) ∧
    (h.IsLongHeader = true → ∀ n : Nat,
      writeHeader { h with PacketNumberLen := n } b = writeHeader h b) := by
  refine ⟨?_, ?_, ?_⟩
  · intro hs hlen
    simp only [writeHeader, hs, Bool.false_eq_true, if_false,
      (writeShortHeader_error_iff h b).2 hlen]
  · intro hl
    simp only [writeHeader, hl, if_true, writeLongHeader_eq]
  · intro hl n
    simp only [writeHeader, hl, if_true, writeLongHeader_eq]

/-- Witness of C9, amended: a short header with `PacketNumberLen = 3` is
refused, and a long header with `PacketNumberLen = 1` is serialised. -/
theorem writeHeader_invalid_packetNumberLen_witness :
    (writeHeader { PacketNumberLen := 3 } [7]).2 = some (.InvalidPacketNumberLen 3) ∧
      (writeHeader { IsLongHeader := true, Typ := 2, PacketNumberLen := 1 } [7]).2 = none :=
  ⟨(writeHeader_invalid_packetNumberLen { PacketNumberLen := 3 } [7]).1 rfl (by decide),
   (writeHeader_invalid_packetNumberLen
      { IsLongHeader := true, Typ := 2, PacketNumberLen := 1 } [7]).2.1 rfl⟩

/-! ## The declared header length -/

/-- C10: when `writeHeader` succeeds, `getHeaderLength` succeeds too and
returns the number of bytes that `writeHeader` appended to the buffer: 17
with long framing, and 1 + (8 if the connection ID is present, else 0) +
`PacketNumberLen` with short framing; with short framing `getHeaderLength`
fails exactly when `writeHeader` fails. -/
theorem getHeaderLength_eq_written (h : Header) (b : Buffer) :
    ((writeHeader h b).2 = none →
      ∃ w, (writeHeader h b).1 = b ++ w ∧ getHeaderLength h = .ok w.length ∧
        w.length = wireLength h) ∧
    (h.IsLongHeader = false →
      ((∃ e, getHeaderLength h = .error e) ↔ (writeHeader h b).2 ≠ none)) := by
  obtain ⟨cid, om, pnl, pn, ver, sv, isvn, typ, lg, kp, spin⟩ := h
  cases lg with
  | true =>
    refine ⟨fun _ => ⟨_, (congrArg Prod.fst (writeLongHeader_eq _ b)), ?_, ?_⟩, ?_⟩
    · simp [getHeaderLength, be64, be32]
    · simp [wireLength, be64, be32]
    · intro hc; simp at hc
  | false =>
    by_cases h1 : pnl = 1
    · subst h1
      cases om <;>
        simp [writeHeader, writeShortHeader, shortTypeByte, getHeaderLength, wireLength,
          PacketNumberLen1, PacketNumberLen2, PacketNumberLen4, WriteByte, WriteUint64]
    · by_cases h2 : pnl = 2
      · subst h2
        cases om <;>
          simp [writeHeader, writeShortHeader, shortTypeByte, getHeaderLength, wireLength,
            PacketNumberLen1, PacketNumberLen2, PacketNumberLen4, WriteByte, WriteUint64,
            WriteUint16]
      · by_cases h4 : pnl = 4
        · subst h4
          cases om <;>
            simp [writeHeader, writeShortHeader, shortTypeByte, getHeaderLength, wireLength,
              PacketNumberLen1, PacketNumberLen2, PacketNumberLen4, WriteByte, WriteUint64,
              WriteUint32]
        · simp [writeHeader, writeShortHeader, shortTypeByte, getHeaderLength,
            PacketNumberLen1, PacketNumberLen2, PacketNumberLen4, h1, h2, h4]

/-- Witness of C10: `exampleShortHeader` takes 1 + 8 + 2 bytes behind a buffer
that already holds two. -/
theorem getHeaderLength_eq_written_witness :
    ∃ w, (writeHeader exampleShortHeader [1, 2]).1 = [1, 2] ++ w ∧
      getHeaderLength exampleShortHeader = .ok w.length ∧
      w.length = wireLength exampleShortHeader :=
  (getHeaderLength_eq_written exampleShortHeader [1, 2]).1 (by decide)

/-! ## The crypto-stream conduit, buffered -/

theorem copyBytes_eq (dst src : List Nat) :
    copyBytes dst src =
      (src.take (min dst.length src.length) ++ dst.drop (min dst.length src.length),
        min dst.length src.length) := by
  unfold copyBytes
  rcases Nat.le_total dst.length src.length with h | h
  · rw [Nat.min_eq_left h, List.drop_of_length_le h, List.drop_of_length_le (Nat.le_refl _)]
  · rw [Nat.min_eq_right h, List.take_of_length_le h, List.take_of_length_le (Nat.le_refl _)]

/-- C11: with no stream set, `Read` on a buffer of length `k` returns
`n = min(k, len q)` and a nil error, puts the first `n` bytes of the read
queue `q` at the front of the buffer and leaves the other bytes of `q` in
the queue, nothing else changing; on a drained queue this is `n = 0` with a
nil error; and `AddDataForReading` appends its data behind `q`. -/
theorem Read_buffered_fifo {S : Type} (ops : StreamOps S) (c : CryptoStreamConn S)
    (hs : c.stream = none) (b data : List Nat) :
    c.Read ops b =
        ({ c with readBuf := c.readBuf.drop (min b.length c.readBuf.length) },
          c.readBuf.take (min b.length c.readBuf.length) ++
            b.drop (min b.length c.readBuf.length),
          min b.length c.readBuf.length, none) ∧
      (c.readBuf = [] → (c.Read ops b).2.2 = (0, none)) ∧
      c.AddDataForReading data = { c with readBuf := c.readBuf ++ data } := by
  have hread : c.Read ops b =
        ({ c with readBuf := c.readBuf.drop (min b.length c.readBuf.length) },
          c.readBuf.take (min b.length c.readBuf.length) ++
            b.drop (min b.length c.readBuf.length),
          min b.length c.readBuf.length, none) := by
    simp only [CryptoStreamConn.Read, hs, BufferRead, copyBytes_eq]
    by_cases hq : c.readBuf.length = 0
    · have hnil : c.readBuf = [] := List.length_eq_zero.mp hq
      by_cases hb : b.length = 0
      · simp [hq, hb, hnil]
      · simp [hq, hb, hnil]
    · simp [hq]
  refine ⟨hread, ?_, rfl⟩
  intro hq
  rw [hread, hq]
  simp

/-- Witness of C11: the test of the repository, `foobar` read into four bytes. -/
theorem Read_buffered_fifo_witness :
    (((NewCryptoStreamConn Buffer).AddDataForReading [102, 111, 111, 98, 97, 114]).Read
        bufferStream [0, 0, 0, 0]).2 = ([102, 111, 111, 98], 4, none) ∧
    (((NewCryptoStreamConn Buffer).AddDataForReading [102, 111, 111, 98, 97, 114]).Read
        bufferStream [0, 0, 0, 0]).1.readBuf = [97, 114] := by
  have h := (Read_buffered_fifo bufferStream
    ((NewCryptoStreamConn Buffer).AddDataForReading [102, 111, 111, 98, 97, 114]) rfl
    [0, 0, 0, 0] []).1
  rw [h]
  decide

theorem writeAll_buffered {S : Type} (ops : StreamOps S) (ws : List (List Nat)) :
    ∀ c : CryptoStreamConn S, c.stream = none →
      CryptoStreamConn.writeAll ops c ws =
        ({ c with writeBuf := c.writeBuf ++ ws.flatten },
          ws.map (fun p => (p.length, none))) := by
  induction ws with
  | nil => intro c _; simp [CryptoStreamConn.writeAll]
  | cons p ps ih =>
    intro c hs
    have hw : c.Write ops p = ({ c with writeBuf := c.writeBuf ++ p }, p.length, none) := by
      simp [CryptoStreamConn.Write, hs, BufferWrite]
    simp only [CryptoStreamConn.writeAll, hw]
    rw [ih { c with writeBuf := c.writeBuf ++ p } hs]
    simp [List.append_assoc]

/-- C12: with no stream set, each `Write(p)` of a sequence returns `len(p)` and
no error; `GetDataForWriting` then returns the bytes written since the
previous `GetDataForWriting` (or since creation), concatenated in call
order, and empties the write queue, so that a `GetDataForWriting` right
after it returns no bytes. -/
theorem GetDataForWriting_harvests_once {S : Type} (ops : StreamOps S)
    (c : CryptoStreamConn S) (hs : c.stream = none) (ws : List (List Nat)) :
    (CryptoStreamConn.writeAll ops c.GetDataForWriting.1 ws).2
        = ws.map (fun p => (p.length, none)) ∧
      (CryptoStreamConn.writeAll ops c.GetDataForWriting.1 ws).1.GetDataForWriting.2
        = ws.flatten ∧
      (CryptoStreamConn.writeAll ops (NewCryptoStreamConn S) ws).1.GetDataForWriting.2
        = ws.flatten ∧
      (CryptoStreamConn.writeAll ops c.GetDataForWriting.1
        ws).1.GetDataForWriting.1.GetDataForWriting.2 = [] := by
  have h1 := writeAll_buffered ops ws c.GetDataForWriting.1 hs
  have h2 := writeAll_buffered ops ws (NewCryptoStreamConn S) rfl
  rw [h1, h2]
  simp [CryptoStreamConn.GetDataForWriting, NewCryptoStreamConn]

/-- Witness of C12: the test of the repository, `foo` harvested, then `bar`. -/
theorem GetDataForWriting_harvests_once_witness :
    (CryptoStreamConn.writeAll bufferStream
      (CryptoStreamConn.writeAll bufferStream (NewCryptoStreamConn Buffer)
        [[102, 111, 111]]).1.GetDataForWriting.1 [[98, 97, 114]]).1.GetDataForWriting.2
      = [98, 97, 114] :=
  (GetDataForWriting_harvests_once bufferStream
    (CryptoStreamConn.writeAll bufferStream (NewCryptoStreamConn Buffer) [[102, 111, 111]]).1
    rfl [[98, 97, 114]]).2.1

/-! ## The crypto-stream conduit, with a stream -/

theorem Flush_empty {S : Type} (ops : StreamOps S) (c : CryptoStreamConn S)
    (hw : c.writeBuf = []) : c.Flush ops = (c, 0, none) := by
  cases c with
  | mk rb wb st =>
    simp only at hw
    subst hw
    simp [CryptoStreamConn.Flush]

theorem Flush_accepted {S : Type} (ops : StreamOps S) (c : CryptoStreamConn S)
    (s : StreamRef S) (hs : c.stream = some s) (hw : c.writeBuf ≠ [])
    (hacc : (ops.Write s.state c.writeBuf).2 = (c.writeBuf.length, none)) :
    c.Flush ops =
      ({ c with writeBuf := [],
                stream := some { s with state := (ops.Write s.state c.writeBuf).1 } },
        c.writeBuf.length, none) := by
  have hpos : c.writeBuf.length > 0 := List.length_pos.mpr hw
  have h1 : (ops.Write s.state c.writeBuf).2.1 = c.writeBuf.length := by rw [hacc]
  have h2 : (ops.Write s.state c.writeBuf).2.2 = none := by rw [hacc]
  simp [CryptoStreamConn.Flush, hpos, hs, h1, h2]

/-- C13: after writes `w1..wk` into a conn without a stream and with an empty
write queue, `SetStream(s)` leaves `s` as it is and the write queue holding
`w1 ++ ... ++ wk`; the following `Flush` hands these bytes to `s` in one
`Write` (none when there are no bytes), provided `s` accepts them, returns
their number and no error and leaves the write queue empty; a second
`Flush` returns 0 and no error and leaves conn and stream as they are. -/
theorem SetStream_then_Flush {S : Type} (ops : StreamOps S) (c : CryptoStreamConn S)
    (hs : c.stream = none) (hw : c.writeBuf = []) (ws : List (List Nat)) (s : StreamRef S)
    (hacc : ws.flatten ≠ [] →
      (ops.Write s.state ws.flatten).2 = (ws.flatten.length, none)) :
    ((CryptoStreamConn.writeAll ops c ws).1.SetStream (some s)) =
        { c with writeBuf := ws.flatten, stream := some s } ∧
      (((CryptoStreamConn.writeAll ops c ws).1.SetStream (some s)).Flush ops) =
        ({ c with writeBuf := [],
                  stream := some { s with state :=
                    if ws.flatten = [] then s.state
                    else (ops.Write s.state ws.flatten).1 } },
          ws.flatten.length, none) ∧
      ((((CryptoStreamConn.writeAll ops c ws).1.SetStream (some s)).Flush ops).1.Flush ops) =
        ((((CryptoStreamConn.writeAll ops c ws).1.SetStream (some s)).Flush ops).1, 0, none) := by
  have h1 : ((CryptoStreamConn.writeAll ops c ws).1.SetStream (some s)) =
      { c with writeBuf := ws.flatten, stream := some s } := by
    rw [writeAll_buffered ops ws c hs]
    simp [CryptoStreamConn.SetStream, hw]
  have h2 : (({ c with writeBuf := ws.flatten, stream := some s } :
        CryptoStreamConn S).Flush ops) =
        ({ c with writeBuf := [],
                  stream := some { s with state :=
                    if ws.flatten = [] then s.state
                    else (ops.Write s.state ws.flatten).1 } },
          ws.flatten.length, none) := by
    by_cases he : ws.flatten = []
    · rw [Flush_empty ops _ he]
      simp [he]
    · rw [Flush_accepted ops _ s rfl he (hacc he)]
      simp [he]
  refine ⟨h1, ?_, ?_⟩
  · rw [h1, h2]
  · rw [h1, h2]
    exact Flush_empty ops _ rfl

/-- Witness of C13: `foo` and `bar` written, then a `bytes.Buffer` holding `x`
attached and flushed: the stream holds `xfoobar`. -/
theorem SetStream_then_Flush_witness :
    (((CryptoStreamConn.writeAll bufferStream (NewCryptoStreamConn Buffer)
        [[102, 111, 111], [98, 97, 114]]).1.SetStream
          (some { addr := 1, state := [120] })).Flush bufferStream) =
      ({ readBuf := [], writeBuf := [],
         stream := some { addr := 1, state := [120, 102, 111, 111, 98, 97, 114] } },
        6, none) :=
  (SetStream_then_Flush bufferStream (NewCryptoStreamConn Buffer) rfl rfl
    [[102, 111, 111], [98, 97, 114]] { addr := 1, state := [120] } (fun _ => rfl)).2.1

/-- C14: with a stream attached, `Read(b)` returns what the stream's `Read(b)`
returns and `Write(p)` what the stream's `Write(p)` returns, whatever the two
queues hold, and both leave the read queue and the write queue as they
are (only the state of the stream moves on). -/
theorem stream_bypasses_buffers {S : Type} (ops : StreamOps S) (c : CryptoStreamConn S)
    (s : StreamRef S) (hs : c.stream = some s) (b p : List Nat) :
    c.Read ops b =
        ({ c with stream := some { s with state := (ops.Read s.state b).1 } },
          (ops.Read s.state b).2) ∧
      c.Write ops p =
        ({ c with stream := some { s with state := (ops.Write s.state p).1 } },
          (ops.Write s.state p).2) ∧
      (c.Read ops b).1.readBuf = c.readBuf ∧ (c.Read ops b).1.writeBuf = c.writeBuf ∧
      (c.Write ops p).1.readBuf = c.readBuf ∧ (c.Write ops p).1.writeBuf = c.writeBuf := by
  simp [CryptoStreamConn.Read, CryptoStreamConn.Write, hs]

/-- Witness of C14: the tests of the repository, a `bytes.Buffer` holding
`foobar` as the stream, read into three bytes, over queues that are not
empty. -/
theorem stream_bypasses_buffers_witness :
    (({ readBuf := [1], writeBuf := [2],
        stream := some { addr := 1, state := [102, 111, 111, 98, 97, 114] } } :
      CryptoStreamConn Buffer).Read bufferStream [0, 0, 0]) =
      ({ readBuf := [1], writeBuf := [2], stream := some { addr := 1, state := [98, 97, 114] } },
        [102, 111, 111], 3, none) :=
  (stream_bypasses_buffers bufferStream
    { readBuf := [1], writeBuf := [2],
      stream := some { addr := 1, state := [102, 111, 111, 98, 97, 114] } }
    { addr := 1, state := [102, 111, 111, 98, 97, 114] } rfl [0, 0, 0] []).1

/-! ## The transition from buffered to streaming -/

/-- Counterexample to C15 as stated: on a new conn to which the stream at
address 1 has been attached, a further `SetStream(nil)` brings the conn back
to the buffered state, and a further `SetStream` with the stream at address 2
puts that stream in the place of the first. -/
theorem SetStream_not_one_shot :
    ((NewCryptoStreamConn Buffer).run bufferStream
        [.SetStream (some { addr := 1, state := [] }), .SetStream none]).stream = none ∧
      ((NewCryptoStreamConn Buffer).run bufferStream
        [.SetStream (some { addr := 1, state := [] }),
         .SetStream (some { addr := 2, state := [] })]).stream
        = some { addr := 2, state := [] } := by
  decide

theorem step_keeps_stream {S : Type} (ops : StreamOps S) (c : CryptoStreamConn S)
    (s : StreamRef S) (hs : c.stream = some s) (op : ConnOp S)
    (hop : op.isSetStream = false) :
    ∃ st, (c.step ops op).stream = some { s with state := st } := by
  cases op with
  | Read b =>
    exact ⟨(ops.Read s.state b).1, by simp [CryptoStreamConn.step, CryptoStreamConn.Read, hs]⟩
  | Write p =>
    exact ⟨(ops.Write s.state p).1, by simp [CryptoStreamConn.step, CryptoStreamConn.Write, hs]⟩
  | AddDataForReading data =>
    exact ⟨s.state, by simp [CryptoStreamConn.step, CryptoStreamConn.AddDataForReading, hs]⟩
  | GetDataForWriting =>
    exact ⟨s.state, by simp [CryptoStreamConn.step, CryptoStreamConn.GetDataForWriting, hs]⟩
  | Flush =>
    simp only [CryptoStreamConn.step, CryptoStreamConn.Flush, hs]
    split
    · split
      · exact ⟨_, rfl⟩
      · split
        · exact ⟨_, rfl⟩
        · split
          · exact ⟨_, rfl⟩
          · exact ⟨_, rfl⟩
    · exact ⟨s.state, by simp [hs]⟩
  | SetStream x => simp [ConnOp.isSetStream] at hop

/-- C15, amended: `SetStream` is a plain setter, whatever stream or nil it is
given becomes the stream of the conn; every other call (`Read`, `Write`,
`AddDataForReading`, `GetDataForWriting`, `Flush`) keeps the conn in the
streaming state with the same stream object attached, so the conn stays
streaming with its stream over every sequence of calls without `SetStream`. -/
theorem stream_kept_until_SetStream {S : Type} (ops : StreamOps S)
    (l : List (ConnOp S)) (hl : ∀ op ∈ l, op.isSetStream = false) :
    (∀ (c : CryptoStreamConn S) (s : StreamRef S), c.stream = some s →
      ∃ st, (c.run ops l).stream = some { s with state := st }) ∧
    (∀ (c : CryptoStreamConn S) (x : Option (StreamRef S)), (c.SetStream x).stream = x) := by
  refine ⟨?_, fun c x => rfl⟩
  induction l with
  | nil => intro c s hs; exact ⟨s.state, by simp [CryptoStreamConn.run, hs]⟩
  | cons op l ih =>
    intro c s hs
    obtain ⟨st, hst⟩ := step_keeps_stream ops c s hs op (hl op (List.mem_cons_self _ _))
    obtain ⟨st2, hst2⟩ := ih (fun o ho => hl o (List.mem_cons_of_mem _ ho))
      (c.step ops op) _ hst
    exact ⟨st2, by simpa [CryptoStreamConn.run] using hst2⟩

/-- Witness of C15, amended: a write, a flush and a read on a conn whose
stream is the `bytes.Buffer` at address 1 leave that stream attached. -/
theorem stream_kept_until_SetStream_witness :
    ∃ st, (({ writeBuf := [7], stream := some { addr := 1, state := [] } } :
        CryptoStreamConn Buffer).run bufferStream
          [.Write [1, 2], .Flush, .Read [0]]).stream = some { addr := 1, state := st } :=
  (stream_kept_until_SetStream bufferStream [.Write [1, 2], .Flush, .Read [0]]
    (by decide)).1 { writeBuf := [7], stream := some { addr := 1, state := [] } }
    { addr := 1, state := [] } rfl

/-! ## The transport-parameter extension on ClientHello -/

theorem checkNoResetToken_cases {E : Type} (resetID : Nat) (ps : List transportParameter) :
    (checkNoResetToken resetID ps : Option (ReceiveErr E)) = none ∨
      (checkNoResetToken resetID ps : Option (ReceiveErr E)) = some .StatelessResetToken := by
  induction ps with
  | nil => exact Or.inl rfl
  | cons p ps ih =>
    by_cases hp : p.Parameter = resetID
    · exact Or.inr (by simp [checkNoResetToken, hp])
    · simpa [checkNoResetToken, hp] using ih

theorem checkNoResetToken_of_mem {E : Type} (resetID : Nat) (ps : List transportParameter)
    (h : ∃ p ∈ ps, p.Parameter = resetID) :
    (checkNoResetToken resetID ps : Option (ReceiveErr E)) = some .StatelessResetToken := by
  induction ps with
  | nil => simp at h
  | cons p ps ih =>
    by_cases hp : p.Parameter = resetID
    · simp [checkNoResetToken, hp]
    · have h2 : ∃ q ∈ ps, q.Parameter = resetID := by
        obtain ⟨q, hq, hqe⟩ := h
        rcases List.mem_cons.mp hq with rfl | hq2
        · exact absurd hqe hp
        · exact ⟨q, hq2, hqe⟩
      simpa [checkNoResetToken, hp] using ih h2

/-- What `Receive` does with a ClientHello whose QUIC extension is present and
decodes, once the two version checks have passed. -/
theorem Receive_after_version_checks {EL Data TP E : Type} (env : ReceiveEnv EL Data TP E)
    (h : extensionHandlerServer TP) (el : EL) (data : Data)
    (chtp : clientHelloTransportParameters)
    (hf : env.Find el = some data) (hu : env.Unmarshal data = .ok chtp)
    (h1 : chtp.NegotiatedVersion = h.version)
    (h2 : ¬ (chtp.InitialVersion ≠ chtp.NegotiatedVersion ∧
      chtp.InitialVersion ∈ h.supportedVersions)) :
    h.Receive env HandshakeTypeClientHello el =
      match (checkNoResetToken env.statelessResetTokenParameterID chtp.Parameters :
          Option (ReceiveErr E)) with
      | some e => (h, some e)
      | none =>
        match env.readTransportParamters chtp.Parameters with
        | .error e => (h, some (.ReadTransportParameters e))
        | .ok params =>
          ({ h with paramsChan := h.paramsChan ++ [env.setMaxStreams params (2 ^ 32 - 1)] },
            none) := by
  have h2b : ¬ (chtp.InitialVersion ≠ h.version ∧
      IsSupportedVersion h.supportedVersions chtp.InitialVersion = true) := by
    rw [← h1]
    simpa [IsSupportedVersion] using h2
  simp only [extensionHandlerServer.Receive, hf, hu, h1, ne_eq, not_true_eq_false, if_false,
    h2b]

/-- C16: on a ClientHello whose QUIC extension is present and decodes to
`(initialVersion, negotiatedVersion, parameters)`, `Receive` fails with
`VersionNegotiationMismatch` exactly when `negotiatedVersion` is not the
version of the session, or `initialVersion` differs from `negotiatedVersion`
and is one of the supported versions; so it fails whenever the initial
version is supported and differs from the negotiated one. -/
theorem Receive_version_downgrade_check {EL Data TP E : Type}
    (env : ReceiveEnv EL Data TP E) (h : extensionHandlerServer TP) (el : EL) (data : Data)
    (chtp : clientHelloTransportParameters)
    (hf : env.Find el = some data) (hu : env.Unmarshal data = .ok chtp) :
    ((∃ m, (h.Receive env HandshakeTypeClientHello el).2 =
          some (.VersionNegotiationMismatch m)) ↔
        (chtp.NegotiatedVersion ≠ h.version ∨
          (chtp.InitialVersion ≠ chtp.NegotiatedVersion ∧
            chtp.InitialVersion ∈ h.supportedVersions))) ∧
      (chtp.InitialVersion ∈ h.supportedVersions →
        chtp.InitialVersion ≠ chtp.NegotiatedVersion →
        ∃ m, h.Receive env HandshakeTypeClientHello el =
          (h, some (.VersionNegotiationMismatch m))) := by
  have key : (chtp.NegotiatedVersion ≠ h.version ∨
          (chtp.InitialVersion ≠ chtp.NegotiatedVersion ∧
            chtp.InitialVersion ∈ h.supportedVersions)) →
        ∃ m, h.Receive env HandshakeTypeClientHello el =
          (h, some (.VersionNegotiationMismatch m)) := by
    intro hc
    by_cases h1 : chtp.NegotiatedVersion = h.version
    · have h2 : chtp.InitialVersion ≠ chtp.NegotiatedVersion ∧
          chtp.InitialVersion ∈ h.supportedVersions := by
        rcases hc with hc | hc
        · exact absurd h1 hc
        · exact hc
      have h2b : chtp.InitialVersion ≠ h.version ∧
          IsSupportedVersion h.supportedVersions chtp.InitialVersion = true := by
        rw [← h1]
        simpa [IsSupportedVersion] using h2
      exact ⟨.ClientShouldHaveUsedInitialVersion, by
        simp only [extensionHandlerServer.Receive, hf, hu, h1, ne_eq, not_true_eq_false,
          if_false, h2b, not_false_eq_true, and_self, if_true]⟩
    · exact ⟨.InconsistentNegotiatedVersion, by
        simp only [extensionHandlerServer.Receive, hf, hu, ne_eq, h1, not_false_eq_true,
          if_true, not_true_eq_false, if_false]⟩
  refine ⟨⟨?_, ?_⟩, fun hm hne => key (Or.inr ⟨hne, hm⟩)⟩
  · rintro ⟨m, hm⟩
    by_contra hc
    have h1 : chtp.NegotiatedVersion = h.version := by
      by_contra h1
      exact hc (Or.inl h1)
    have h2 : ¬ (chtp.InitialVersion ≠ chtp.NegotiatedVersion ∧
        chtp.InitialVersion ∈ h.supportedVersions) := fun h2 => hc (Or.inr h2)
    rw [Receive_after_version_checks env h el data chtp hf hu h1 h2] at hm
    rcases checkNoResetToken_cases (E := E) env.statelessResetTokenParameterID
      chtp.Parameters with hr | hr
    · rw [hr] at hm
      cases hrt : env.readTransportParamters chtp.Parameters with
      | error e => rw [hrt] at hm; simp at hm
      | ok params => rw [hrt] at hm; simp at hm
    · rw [hr] at hm
      simp at hm
  · intro hc
    obtain ⟨m, hm⟩ := key hc
    exact ⟨m, by rw [hm]⟩

/-- Witness of C16: a client whose initial version 39 is supported but which
negotiated 101 is turned away. -/
theorem Receive_version_downgrade_check_witness :
    ∃ m, exampleHandler.Receive exampleReceiveEnv HandshakeTypeClientHello
        (some exampleDowngradedHello) =
      (exampleHandler, some (.VersionNegotiationMismatch m)) :=
  (Receive_version_downgrade_check exampleReceiveEnv exampleHandler
    (some exampleDowngradedHello) exampleDowngradedHello exampleDowngradedHello rfl rfl).2
    (by decide) (by decide)

/-- C17: `Receive` on a ClientHello without the QUIC extension fails with
"ClientHello didn't contain a QUIC extension"; on any other handshake type it
fails when the list holds the QUIC extension and succeeds when it does not;
in the three cases the handler is left as it was, nothing being sent on the
parameter channel. -/
theorem Receive_extension_placement {EL Data TP E : Type} (env : ReceiveEnv EL Data TP E)
    (h : extensionHandlerServer TP) (hType : Nat) (el : EL) :
    (env.Find el = none →
        h.Receive env HandshakeTypeClientHello el = (h, some .MissingExtension)) ∧
      (hType ≠ HandshakeTypeClientHello → env.Find el ≠ none →
        h.Receive env hType el = (h, some (.UnexpectedExtension hType))) ∧
      (hType ≠ HandshakeTypeClientHello → env.Find el = none →
        h.Receive env hType el = (h, none)) := by
  refine ⟨?_, ?_, ?_⟩
  · intro hf
    simp [extensionHandlerServer.Receive, hf]
  · intro ht hf
    obtain ⟨data, hd⟩ := Option.ne_none_iff_exists'.mp hf
    simp [extensionHandlerServer.Receive, ht, hd]
  · intro ht hf
    simp [extensionHandlerServer.Receive, ht, hf]

/-- Witness of C17: a ClientHello without the extension, and the extension on
a handshake message of type 8. -/
theorem Receive_extension_placement_witness :
    exampleHandler.Receive exampleReceiveEnv HandshakeTypeClientHello none =
        (exampleHandler, some .MissingExtension) ∧
      exampleHandler.Receive exampleReceiveEnv 8 (some exampleDowngradedHello) =
        (exampleHandler, some (.UnexpectedExtension 8)) :=
  ⟨(Receive_extension_placement exampleReceiveEnv exampleHandler 8 none).1 rfl,
   (Receive_extension_placement exampleReceiveEnv exampleHandler 8
      (some exampleDowngradedHello)).2.1 (by decide) (by decide)⟩

/-- C18: on a ClientHello whose decoded QUIC extension holds a parameter with
the identifier `statelessResetTokenParameterID`, wherever in the list,
`Receive` returns an error and leaves the handler as it was, no
`TransportParameters` being sent on the parameter channel; when the version
checks pass, the error is "client sent a stateless reset token". -/
theorem Receive_rejects_reset_token {EL Data TP E : Type} (env : ReceiveEnv EL Data TP E)
    (h : extensionHandlerServer TP) (el : EL) (data : Data)
    (chtp : clientHelloTransportParameters)
    (hf : env.Find el = some data) (hu : env.Unmarshal data = .ok chtp)
    (hp : ∃ p ∈ chtp.Parameters, p.Parameter = env.statelessResetTokenParameterID) :
    (∃ e, h.Receive env HandshakeTypeClientHello el = (h, some e)) ∧
      (chtp.NegotiatedVersion = h.version →
        ¬ (chtp.InitialVersion ≠ chtp.NegotiatedVersion ∧
          chtp.InitialVersion ∈ h.supportedVersions) →
        h.Receive env HandshakeTypeClientHello el = (h, some .StatelessResetToken)) := by
  have hlate : chtp.NegotiatedVersion = h.version →
        ¬ (chtp.InitialVersion ≠ chtp.NegotiatedVersion ∧
          chtp.InitialVersion ∈ h.supportedVersions) →
        h.Receive env HandshakeTypeClientHello el = (h, some .StatelessResetToken) := by
    intro h1 h2
    rw [Receive_after_version_checks env h el data chtp hf hu h1 h2,
      checkNoResetToken_of_mem env.statelessResetTokenParameterID chtp.Parameters hp]
  refine ⟨?_, hlate⟩
  by_cases h1 : chtp.NegotiatedVersion = h.version
  · by_cases h2 : chtp.InitialVersion ≠ chtp.NegotiatedVersion ∧
        chtp.InitialVersion ∈ h.supportedVersions
    · have h2b : chtp.InitialVersion ≠ h.version ∧
          IsSupportedVersion h.supportedVersions chtp.InitialVersion = true := by
        rw [← h1]
        simpa [IsSupportedVersion] using h2
      exact ⟨.VersionNegotiationMismatch .ClientShouldHaveUsedInitialVersion, by
        simp only [extensionHandlerServer.Receive, hf, hu, h1, ne_eq, not_true_eq_false,
          if_false, h2b, not_false_eq_true, and_self, if_true]⟩
    · exact ⟨_, hlate h1 h2⟩
  · exact ⟨.VersionNegotiationMismatch .InconsistentNegotiatedVersion, by
      simp only [extensionHandlerServer.Receive, hf, hu, ne_eq, h1, not_false_eq_true,
        if_true, not_true_eq_false, if_false]⟩

/-- Witness of C18: a reset token as the second parameter of the list. -/
theorem Receive_rejects_reset_token_witness :
    exampleHandler.Receive exampleReceiveEnv HandshakeTypeClientHello
        (some exampleResetTokenHello) = (exampleHandler, some .StatelessResetToken) :=
  (Receive_rejects_reset_token exampleReceiveEnv exampleHandler
    (some exampleResetTokenHello) exampleResetTokenHello exampleResetTokenHello rfl rfl
    ⟨{ Parameter := 6, Value := [42] }, by decide, rfl⟩).2 rfl (by decide)

/-! ## The two builders of the version list with a reserved version -/

theorem storeAt_append (pre tl : List Nat) (x v : Nat) :
    storeAt (pre ++ x :: tl) pre.length v = .ok (pre ++ v :: tl) := by
  have hlt : pre.length < (pre ++ x :: tl).length := by simp
  simp only [storeAt, hlt, if_true, set_length_append]

/-- The loop of `getSupportedVersions` once the index has passed `randPos`:
every version is stored at the next index. -/
theorem getSupportedVersionsLoop_after (k r : Nat) (vs : List Nat) :
    ∀ (pre tl : List Nat), k < pre.length → tl.length = vs.length →
      getSupportedVersionsLoop k r vs (pre ++ tl) pre.length =
        .ok (pre ++ vs.map (fun v => v % 2 ^ 32), pre.length + vs.length) := by
  induction vs with
  | nil =>
    intro pre tl _ htl
    have : tl = [] := List.length_eq_zero.mp (by simpa using htl)
    subst this
    simp [getSupportedVersionsLoop]
  | cons v vs ih =>
    intro pre tl hk htl
    obtain ⟨x, tl1, rfl⟩ : ∃ x tl1, tl = x :: tl1 := by
      cases tl with
      | nil => simp at htl
      | cons x tl1 => exact ⟨x, tl1, rfl⟩
    have hne : ¬ pre.length = k := by omega
    have ih1 := ih (pre ++ [v % 2 ^ 32]) tl1 (by simp; omega) (by simpa using htl)
    simp only [List.length_append, List.length_singleton, List.append_assoc,
      List.singleton_append] at ih1
    simp only [getSupportedVersionsLoop, hne, if_false, storeAt_append, ih1, List.map_cons,
      List.length_cons]
    simp only [Except.ok.injEq, Prod.mk.injEq, true_and]
    omega

/-- The loop of `getSupportedVersions` before the index has reached `randPos`,
on a slice with one entry more than there are versions left. -/
theorem getSupportedVersionsLoop_before (k r : Nat) (vs : List Nat) :
    ∀ (pre tl0 : List Nat) (z : Nat), pre.length ≤ k → tl0.length = vs.length →
      getSupportedVersionsLoop k r vs (pre ++ (tl0 ++ [z])) pre.length =
        if k - pre.length < vs.length then
          .ok (pre ++ ((vs.take (k - pre.length)).map (fun v => v % 2 ^ 32) ++
                (r % 2 ^ 32) :: (vs.drop (k - pre.length)).map (fun v => v % 2 ^ 32)),
               pre.length + vs.length + 1)
        else .ok (pre ++ (vs.map (fun v => v % 2 ^ 32) ++ [z]), pre.length + vs.length) := by
  induction vs with
  | nil =>
    intro pre tl0 z _ htl
    have : tl0 = [] := List.length_eq_zero.mp (by simpa using htl)
    subst this
    simp [getSupportedVersionsLoop]
  | cons v vs ih =>
    intro pre tl0 z hk htl
    obtain ⟨x, tl1, rfl⟩ : ∃ x tl1, tl0 = x :: tl1 := by
      cases tl0 with
      | nil => simp at htl
      | cons x tl1 => exact ⟨x, tl1, rfl⟩
    have htl1 : tl1.length = vs.length := by simpa using htl
    have hl : (v :: vs).length = vs.length + 1 := rfl
    by_cases hik : pre.length = k
    · subst hik
      obtain ⟨y, t2, hy⟩ : ∃ y t2, tl1 ++ [z] = y :: t2 := by
        cases tl1 with
        | nil => exact ⟨z, [], rfl⟩
        | cons y t => exact ⟨y, t ++ [z], rfl⟩
      have ht2 : t2.length = vs.length := by
        have := congrArg List.length hy
        simp at this
        omega
      have s1 : storeAt (pre ++ (x :: tl1 ++ [z])) pre.length (r % 2 ^ 32) =
          .ok (pre ++ (r % 2 ^ 32) :: (tl1 ++ [z])) := by
        simpa using storeAt_append pre (tl1 ++ [z]) x (r % 2 ^ 32)
      have s2 : storeAt (pre ++ (r % 2 ^ 32) :: (tl1 ++ [z])) (pre.length + 1) (v % 2 ^ 32) =
          .ok ((pre ++ [r % 2 ^ 32, v % 2 ^ 32]) ++ t2) := by
        have := storeAt_append (pre ++ [r % 2 ^ 32]) t2 y (v % 2 ^ 32)
        rw [hy]
        simpa using this
      have ha := getSupportedVersionsLoop_after pre.length r vs
        (pre ++ [r % 2 ^ 32, v % 2 ^ 32]) t2 (by simp) ht2
      have hlen2 : (pre ++ [r % 2 ^ 32, v % 2 ^ 32]).length = pre.length + 1 + 1 := by simp
      rw [hlen2] at ha
      simp only [getSupportedVersionsLoop, if_true, s1, s2, ha]
      rw [if_pos (by simp)]
      simp only [Nat.sub_self, List.take_zero, List.map_nil, List.drop_zero, List.map_cons,
        List.nil_append, List.length_cons, List.append_assoc, List.cons_append,
        Except.ok.injEq, Prod.mk.injEq, true_and]
      omega
    · have hlt : pre.length < k := by omega
      obtain ⟨d, hd⟩ : ∃ d, k - pre.length = d + 1 := ⟨k - pre.length - 1, by omega⟩
      have s1 : storeAt (pre ++ (x :: tl1 ++ [z])) pre.length (v % 2 ^ 32) =
          .ok ((pre ++ [v % 2 ^ 32]) ++ (tl1 ++ [z])) := by
        simpa using storeAt_append pre (tl1 ++ [z]) x (v % 2 ^ 32)
      have ih1 := ih (pre ++ [v % 2 ^ 32]) tl1 z (by simp; omega) htl1
      have hd2 : k - (pre.length + 1) = d := by omega
      simp only [List.length_append, List.length_singleton, hd2] at ih1
      simp only [getSupportedVersionsLoop, hik, if_false, s1, ih1, hd, List.length_cons,
        List.take_succ_cons, List.drop_succ_cons, List.map_cons]
      by_cases hc : d < vs.length
      · rw [if_pos hc, if_pos (by omega)]
        simp only [List.append_assoc, List.singleton_append, List.cons_append,
          List.nil_append, Except.ok.injEq, Prod.mk.injEq, true_and]
        omega
      · rw [if_neg hc, if_neg (by omega)]
        simp only [List.append_assoc, List.singleton_append, List.cons_append,
          List.nil_append, Except.ok.injEq, Prod.mk.injEq, true_and]
        omega

/-- The list `getSupportedVersions` returns, in closed form; no store is out
of range. -/
theorem getSupportedVersions_eq {TP : Type} (h : extensionHandlerServer TP) (rnd r : Nat) :
    h.getSupportedVersions rnd r =
      .ok ((h.supportedVersions.take (rnd % (h.supportedVersions.length + 1)) ++
            r :: h.supportedVersions.drop (rnd % (h.supportedVersions.length + 1))).map
              (fun v => v % 2 ^ 32)) := by
  have hk : rnd % (h.supportedVersions.length + 1) < h.supportedVersions.length + 1 :=
    Nat.mod_lt _ (by omega)
  have hloop := getSupportedVersionsLoop_before (rnd % (h.supportedVersions.length + 1)) r
    h.supportedVersions [] (List.replicate h.supportedVersions.length 0) 0
    (Nat.zero_le _) (by simp)
  simp only [List.nil_append, List.length_nil, Nat.sub_zero, Nat.zero_add] at hloop
  simp only [extensionHandlerServer.getSupportedVersions, List.replicate_succ', hloop]
  by_cases hn : rnd % (h.supportedVersions.length + 1) = h.supportedVersions.length
  · rw [hn]
    have hst := storeAt_append (h.supportedVersions.map (fun v => v % 2 ^ 32)) [] 0
      (r % 2 ^ 32)
    simp only [List.length_map] at hst
    simpa using hst
  · have hlt : rnd % (h.supportedVersions.length + 1) < h.supportedVersions.length := by omega
    simp [hlt, hn]

theorem encodeVersions_map_mod (l : List Nat) :
    encodeVersions (l.map (fun v => v % 2 ^ 32)) = encodeVersions l := by
  induction l with
  | nil => rfl
  | cons v vs ih => simpa [encodeVersions] using ih

/-- C20: for the same versions `V`, random byte `b` and reserved version `r`,
`getSupportedVersions` returns, without a store out of range, a list `L` that
is, element for element, the sequence of 32-bit values that `writeVersions`
writes: `L` has `len(V) + 1` entries, it is `V` with `r` inserted at index
`b mod (len(V) + 1)` (as 32-bit values), the bytes written decode to `L`
and are the encoding of `L`. -/
theorem getSupportedVersions_matches_writeVersions {TP : Type}
    (h : extensionHandlerServer TP) (b r : Nat) :
    ∃ L, h.getSupportedVersions b r = .ok L ∧
      decodeVersions (writeVersions [] h.supportedVersions b r) = L ∧
      writeVersions [] h.supportedVersions b r = encodeVersions L ∧
      L.length = h.supportedVersions.length + 1 ∧
      L = (h.supportedVersions.take (b % (h.supportedVersions.length + 1)) ++
            r :: h.supportedVersions.drop (b % (h.supportedVersions.length + 1))).map
              (fun v => v % 2 ^ 32) := by
  have hk : b % (h.supportedVersions.length + 1) < h.supportedVersions.length + 1 :=
    Nat.mod_lt _ (by omega)
  refine ⟨_, getSupportedVersions_eq h b r, ?_, ?_, ?_, rfl⟩
  · rw [writeVersions_eq, List.nil_append, decodeVersions_encodeVersions]
  · rw [writeVersions_eq, List.nil_append, encodeVersions_map_mod]
  · simp only [List.length_map, List.length_append, List.length_take, List.length_cons,
      List.length_drop]
    omega

/-! ## The stateless front-end on a version it does not support -/

/-- Evaluation for C19: on an Initial whose version is not among the versions
of the server, `HandleInitial` writes one datagram and delivers no session,
but the datagram, parsed as sent by the server, is not a packet of type
`VersionNegotiation`: with a version field other than 0 it is rejected with
`InvalidPacketHeader`, and no parse of it has `Type = VersionNegotiation`. -/
theorem HandleInitial_version_mismatch {Session : Type} (pt : PacketTypes)
    (hpt : pt.WellFormed) (versions : List Nat)
    (supported : Header → List Nat → InitialOutcome Session)
    (hdr : Header) (data : List Nat) (rnd r : Nat) (hv : hdr.Version ∉ versions) :
    ∃ pkt, (HandleInitial pt versions supported hdr data rnd r).written = [pkt] ∧
      (HandleInitial pt versions supported hdr data rnd r).sessions = [] ∧
      (hdr.Version % 2 ^ 32 ≠ 0 → parseHeader pt pkt Perspective.Server =
        .error (.InvalidPacketHeader pt.VersionNegotiation)) ∧
      (∀ h rest, parseHeader pt pkt Perspective.Server = .ok (h, rest) →
        h.Typ ≠ pt.VersionNegotiation) := by
  obtain ⟨pkt, hc, hA, _, hT⟩ := parseHeader_of_composed pt hpt hdr.ConnectionID
    hdr.PacketNumber hdr.Version versions rnd r
  have hns : IsSupportedVersion versions hdr.Version = false := by
    simp [IsSupportedVersion, hv]
  refine ⟨pkt, ?_, ?_, hA, hT⟩
  · simp [HandleInitial, hns, hc]
  · simp [HandleInitial, hns]

/-- Witness of C19: the call of the test of the repository,
`HandleInitial(nil, &wire.Header{Version: 0x1337}, nil)` on a server with one
version. -/
theorem HandleInitial_version_mismatch_witness :
    ∃ pkt, (HandleInitial examplePacketTypes [101] exampleSupportedPath
        exampleUnsupportedInitial [] 0 0x1a2a3a4a).written = [pkt] ∧
      parseHeader examplePacketTypes pkt Perspective.Server =
        .error (.InvalidPacketHeader examplePacketTypes.VersionNegotiation) :=
  match HandleInitial_version_mismatch examplePacketTypes (by decide) [101]
      exampleSupportedPath exampleUnsupportedInitial [] 0 0x1a2a3a4a (by decide) with
  | ⟨pkt, h1, _, h2, _⟩ => ⟨pkt, h1, h2 (by decide)⟩

/-! ## How evenly the random byte spreads over the positions -/

set_option maxRecDepth 100000 in
/-- Counterexample to C21 as stated: for a list of two versions, 86 byte
values lead to position 0 and 85 to position 1. -/
theorem positionCount_not_uniform :
    (0 : Nat) ≤ 2 ∧ (1 : Nat) ≤ 2 ∧
      positionCount 2 0 = 86 ∧ positionCount 2 1 = 85 ∧
      positionCount 2 0 ≠ positionCount 2 1 := by
  decide

/-- The number of byte values that lead to position `i`, in closed form. -/
theorem positionCount_eq (n i : Nat) (hi : i ≤ n) :
    positionCount n i = 256 / (n + 1) + if i < 256 % (n + 1) then 1 else 0 := by
  have hmod : i % (n + 1) = i := Nat.mod_eq_of_lt (by omega)
  have hc := Nat.count_modEq_card (Nat.succ_pos n) i (b := 256)
  rw [hmod] at hc
  rw [← hc]
  unfold positionCount randPos
  congr 1
  funext b
  simp only [Nat.ModEq, hmod]

/-- C21, amended: for a list `V` of `n` versions the reserved version goes to
position `b mod (n + 1)`, and the number of byte values `b` in 0..255 that
lead to a position `i` in 0..n is `256 / (n + 1)`, plus one when
`i < 256 mod (n + 1)`. So the numbers for two positions differ by at most
one; they are equal when `n + 1` divides 256, and the first and the last
position are only equally frequent when it does. -/
theorem positionCount_spread (V : List Nat) (i j : Nat)
    (hi : i ≤ V.length) (hj : j ≤ V.length) :
    (∀ buf b r, writeVersions buf V b r =
        buf ++ encodeVersions
          (V.take (randPos V.length b) ++ r :: V.drop (randPos V.length b))) ∧
      positionCount V.length i =
        256 / (V.length + 1) + (if i < 256 % (V.length + 1) then 1 else 0) ∧
      positionCount V.length i ≤ positionCount V.length j + 1 ∧
      ((V.length + 1) ∣ 256 → positionCount V.length i = positionCount V.length j) ∧
      (positionCount V.length 0 = positionCount V.length V.length →
        (V.length + 1) ∣ 256) := by
  have ei := positionCount_eq V.length i hi
  have ej := positionCount_eq V.length j hj
  refine ⟨fun buf b r => writeVersions_eq buf V b r, ei, ?_, ?_, ?_⟩
  · rw [ei, ej]
    split_ifs <;> omega
  · intro hd
    have h0 : 256 % (V.length + 1) = 0 := Nat.mod_eq_zero_of_dvd hd
    rw [ei, ej, h0]
    simp
  · intro he
    have e0 := positionCount_eq V.length 0 (Nat.zero_le _)
    have en := positionCount_eq V.length V.length (Nat.le_refl _)
    have hlt : 256 % (V.length + 1) < V.length + 1 := Nat.mod_lt _ (by omega)
    have hn : ¬ V.length < 256 % (V.length + 1) := by omega
    rw [e0, en, if_neg hn] at he
    apply Nat.dvd_of_mod_eq_zero
    by_contra h0
    have hpos : 0 < 256 % (V.length + 1) := Nat.pos_of_ne_zero h0
    rw [if_pos hpos] at he
    omega

/-- Witness of C21, amended: with three versions there are four positions,
four divides 256, and the first and the last position get the same number
of byte values. -/
theorem positionCount_spread_witness :
    positionCount ([1, 2, 3] : List Nat).length 0
      = positionCount ([1, 2, 3] : List Nat).length 3 :=
  (positionCount_spread [1, 2, 3] 0 3 (by decide) (by decide)).2.2.2.1 (by decide)

/-! ## A failed short-header serialisation leaves the buffer alone -/

/-- C22: `writeShortHeader` returns an error exactly when `PacketNumberLen` is
none of 1, 2, 4, whatever the buffer holds, and when it returns an error the
buffer is what it was before the call: no type byte and no part of a header
has been appended. The same holds for `writeHeader` on a header with short
framing, which is `writeShortHeader`. -/
theorem writeShortHeader_atomic_on_failure (h : Header) (b : Buffer) :
    ((writeShortHeader h b).2 ≠ none ↔
        (h.PacketNumberLen ≠ 1 ∧ h.PacketNumberLen ≠ 2 ∧ h.PacketNumberLen ≠ 4)) ∧
      ((writeShortHeader h b).2 ≠ none → (writeShortHeader h b).1 = b) ∧
      (h.IsLongHeader = false → writeHeader h b = writeShortHeader h b) := by
  obtain ⟨hiff, hfail⟩ := writeShortHeader_error_iff h b
  refine ⟨hiff, ?_, ?_⟩
  · intro he
    rw [hfail (hiff.mp he)]
  · intro hs
    simp [writeHeader, hs]

/-- Witness of C22: a short header with `PacketNumberLen = 3` is refused and
the buffer `[7, 8]` stays `[7, 8]`. -/
theorem writeShortHeader_atomic_on_failure_witness :
    (writeShortHeader { PacketNumberLen := 3 } [7, 8]).1 = [7, 8] :=
  (writeShortHeader_atomic_on_failure { PacketNumberLen := 3 } [7, 8]).2.1 (by decide)

end QuicGo
